import Mathlib

/-!
# Couchbase Lite Java: the JNI glue layer (`native_glue.cc`, `native_c4.cc`)

A shallow embedding of the string conversion helpers, the slice wrappers, the
exception translation, the encryption-key copy, the log callback trampoline and
the PBKDF2 entry point, followed by the theorems settled about them.

Conventions of the embedding.
* A byte (`char`, `jbyte`) is a `Nat` below 256, a UTF-16 code unit (`jchar`,
  `char16_t`) is a `Nat` below 65536, a `jint` is an `Int`; where the source
  converts between integer types of different range the embedding wraps
  (`toJint`, `toC4EncryptionAlgorithm`, `toC4LogLevel`, `toUnsignedInt`).
* A Java reference is an `Option`: `none` is the `null` reference.
* A slice (`FLSlice`, `C4Slice`) is an `Option (List Nat)`: `none` is the slice
  with a null buffer, `some bs` a slice whose buffer holds the bytes `bs`.
* Functions that call into the Java VM thread a `JNIEnv` value, which records
  the pending exception of the thread and the log of calls made into Java.
* What the sources only use and do not define (the C++ codec, LiteCore, mbed
  TLS, the build flag `_MSC_VER`, the failures the VM may report) is a
  parameter: the structures `Native`, `MbedTLS`, `JavaVM` and the flags of
  `JNIEnv`.
* Of the C++ heap, the exhaustion that the source handles by name is a
  parameter (`std::bad_alloc` in `UTF8ToJstring`, the flag `bad_alloc`); the
  other allocations of these functions succeed.
* `throwError`, `toJString` and `UTF8ToJstring` call one another; their
  embedding takes the call depth allowed as `fuel` and returns `none` when it
  is used up. The theorems give the fuel that is enough.
-/

namespace litecore.jni

/-! ## The standard library codec `std::codecvt_utf8_utf16`

`std::wstring_convert<std::codecvt_utf8_utf16<char16_t>, char16_t>` is the C++
standard library's transcoder between UTF-8 and UTF-16. `from_bytes` and
`to_bytes` either return the converted string or throw `std::range_error`;
the embedding returns `none` where the library throws. What the library does
with input that is not well-formed is its own business; the embedding follows
the GNU C++ library, release 12 (`read_utf8_code_point`, `utf16_in` and
`utf16_out` of `codecvt.cc`, `__do_str_codecvt` of `locale_conv.h`), the library
of the Linux build: an invalid sequence throws, an incomplete sequence at the
end of the input stops the conversion and what was converted so far is
returned. The build with `_MSC_VER` is given the same codec: on well-formed
input the libraries agree. -/

/-- Continuation byte of a UTF-8 sequence: `10xxxxxx`. -/
def isCont (b : Nat) : Bool := 0x80 ≤ b && b < 0xC0

/-- The second byte of a 3- or 4-byte sequence as `read_utf8_code_point`
accepts it after the lead byte `b0`: a continuation byte that makes no overlong
form (`E0` below `A0`, `F0` below `90`) and no code point above U+10FFFF (`F4`
from `90` on). -/
def validSecond (b0 b1 : Nat) : Bool :=
  isCont b1 && !(b0 == 0xE0 && b1 < 0xA0) && !(b0 == 0xF0 && b1 < 0x90)
    && !(b0 == 0xF4 && 0x90 ≤ b1)

/-- The UTF-16 code units the codec writes for the code point `c`
(`write_utf16_code_point`). -/
def utf16Units (c : Nat) : List Nat :=
  if c < 0x10000 then [c]
  else [0xD800 + (c - 0x10000) / 0x400, 0xDC00 + (c - 0x10000) % 0x400]

/-- The UTF-8 bytes the codec writes for the code point `c`
(`write_utf8_code_point`). -/
def utf8Bytes (c : Nat) : List Nat :=
  if c < 0x80 then [c]
  else if c < 0x800 then [0xC0 + c / 0x40, 0x80 + c % 0x40]
  else if c < 0x10000 then [0xE0 + c / 0x1000, 0x80 + c / 0x40 % 0x40, 0x80 + c % 0x40]
  else [0xF0 + c / 0x40000, 0x80 + c / 0x1000 % 0x40, 0x80 + c / 0x40 % 0x40, 0x80 + c % 0x40]

/-- Model of `wstring_convert::from_bytes`: UTF-8 bytes to UTF-16 code units.
`none` stands for the `std::range_error` thrown on an invalid sequence (stray
continuation byte, overlong form, code point above U+10FFFF, missing
continuation byte inside the input). A sequence cut off by the end of the input
(fewer bytes are left than the lead byte announces) is incomplete, not invalid,
whatever the bytes left of it are: the conversion stops there and returns what
it has. A surrogate encoded in three bytes is converted to the surrogate code
unit. -/
def from_bytes : List Nat → Option (List Nat)
  | [] => some []
  | b0 :: rest =>
    if b0 < 0x80 then (from_bytes rest).map (fun u => b0 :: u)
    else if b0 < 0xC2 then none
    else if b0 < 0xE0 then
      match rest with
      | [] => some []
      | b1 :: r1 =>
        if isCont b1 then
          (from_bytes r1).map (fun u => utf16Units ((b0 - 0xC0) * 0x40 + (b1 - 0x80)) ++ u)
        else none
    else if b0 < 0xF0 then
      match rest with
      | [] => some []
      | [_] => some []
      | b1 :: b2 :: r2 =>
        if validSecond b0 b1 && isCont b2 then
          (from_bytes r2).map
            (fun u => utf16Units ((b0 - 0xE0) * 0x1000 + (b1 - 0x80) * 0x40 + (b2 - 0x80)) ++ u)
        else none
    else if b0 < 0xF5 then
      match rest with
      | [] => some []
      | [_] => some []
      | [_, _] => some []
      | b1 :: b2 :: b3 :: r3 =>
        if validSecond b0 b1 && isCont b2 && isCont b3 then
          (from_bytes r3).map
            (fun u => utf16Units ((b0 - 0xF0) * 0x40000 + (b1 - 0x80) * 0x1000
                        + (b2 - 0x80) * 0x40 + (b3 - 0x80)) ++ u)
        else none
    else none

/-- Model of `wstring_convert::to_bytes`: UTF-16 code units to UTF-8 bytes.
`none` stands for the `std::range_error` thrown on a low surrogate that follows
no high surrogate, on a high surrogate followed by a unit that is no low
surrogate (or on a value that is no 16-bit code unit). A high surrogate that
ends the input is incomplete, not invalid: the conversion stops there and
returns what it has. -/
def to_bytes : List Nat → Option (List Nat)
  | [] => some []
  | u0 :: rest =>
    if u0 < 0xD800 || (0xE000 ≤ u0 && u0 < 0x10000) then
      (to_bytes rest).map (fun s => utf8Bytes u0 ++ s)
    else if u0 < 0xDC00 then
      match rest with
      | u1 :: r1 =>
        if 0xDC00 ≤ u1 && u1 < 0xE000 then
          (to_bytes r1).map
            (fun s => utf8Bytes (0x10000 + (u0 - 0xD800) * 0x400 + (u1 - 0xDC00)) ++ s)
        else none
      | [] => some []
    else none

/-- A Unicode scalar value: a code point that is no surrogate. -/
def isScalar (c : Nat) : Bool := c < 0xD800 || (0xE000 ≤ c && c < 0x110000)

/-- Lowest second byte that may follow the lead byte `b0` (Unicode Table 3-7). -/
def secondLo (b0 : Nat) : Nat :=
  if b0 = 0xE0 then 0xA0 else if b0 = 0xF0 then 0x90 else 0x80

/-- Highest second byte that may follow the lead byte `b0` (Unicode Table 3-7). -/
def secondHi (b0 : Nat) : Nat :=
  if b0 = 0xED then 0x9F else if b0 = 0xF4 then 0x8F else 0xBF

/-- Well-formed UTF-8 byte sequences, as the Unicode Standard tabulates them
(Table 3-7): `00..7F`, `C2..DF 80..BF`, `E0 A0..BF 80..BF`, `E1..EC 80..BF 80..BF`,
`ED 80..9F 80..BF`, `EE..EF 80..BF 80..BF`, `F0 90..BF 80..BF 80..BF`,
`F1..F3 80..BF 80..BF 80..BF`, `F4 80..8F 80..BF 80..BF`. -/
def wellFormedUTF8 : List Nat → Bool
  | [] => true
  | b0 :: rest =>
    if b0 ≤ 0x7F then wellFormedUTF8 rest
    else if b0 < 0xC2 then false
    else if b0 ≤ 0xDF then
      match rest with
      | b1 :: r1 => isCont b1 && wellFormedUTF8 r1
      | _ => false
    else if b0 ≤ 0xEF then
      match rest with
      | b1 :: b2 :: r2 =>
        decide (secondLo b0 ≤ b1) && decide (b1 ≤ secondHi b0) && isCont b2 && wellFormedUTF8 r2
      | _ => false
    else if b0 ≤ 0xF4 then
      match rest with
      | b1 :: b2 :: b3 :: r3 =>
        decide (secondLo b0 ≤ b1) && decide (b1 ≤ secondHi b0) && isCont b2 && isCont b3
          && wellFormedUTF8 r3
      | _ => false
    else false

/-- Well-formed UTF-16: every code unit is a 16-bit value and every surrogate is
half of a pair, a high surrogate `D800..DBFF` directly followed by a low
surrogate `DC00..DFFF`. -/
def wellFormedUTF16 : List Nat → Bool
  | [] => true
  | u0 :: rest =>
    if u0 < 0xD800 || (0xE000 ≤ u0 && u0 < 0x10000) then wellFormedUTF16 rest
    else if u0 < 0xDC00 then
      match rest with
      | u1 :: r1 => decide (0xDC00 ≤ u1) && decide (u1 < 0xE000) && wellFormedUTF16 r1
      | [] => false
    else false

/-- The code points of a well-formed UTF-16 string, surrogate pairs combined. -/
def codePoints : List Nat → List Nat
  | [] => []
  | u0 :: rest =>
    if 0xD800 ≤ u0 && u0 < 0xDC00 then
      match rest with
      | u1 :: r1 => (0x10000 + (u0 - 0xD800) * 0x400 + (u1 - 0xDC00)) :: codePoints r1
      | [] => [u0]
    else u0 :: codePoints rest

/-- The UTF-8 encoding of a sequence of code points (Unicode Table 3-6). -/
def utf8Encode (cps : List Nat) : List Nat := cps.flatMap utf8Bytes

/-! ## LiteCore and JNI data -/

/-- The `C4Error` of LiteCore (`c4Base.h`): domain, code and an internal index. -/
structure C4Error where
  domain : Int
  code : Int
  internal_info : Int
deriving DecidableEq, Repr

/-- Constant of `c4Base.h`, which is not among these sources: the error domain
of LiteCore itself, with the value LiteCore declares. -/
def LiteCoreDomain : Int := 1

/-- Constant of `c4Base.h`, not among these sources, with the value LiteCore declares. -/
def kC4ErrorUnexpectedError : Int := 10

/-- Constant of `c4Base.h`, not among these sources, with the value LiteCore declares. -/
def kC4ErrorMemoryError : Int := 13

/-- Constant of `c4Base.h`, not among these sources, with the value LiteCore declares. -/
def kC4ErrorCorruptData : Int := 15

/-- Constant of `c4Base.h`, not among these sources, with the value LiteCore declares. -/
def kC4ErrorCrypto : Int := 22

/-- Constant of `c4Database.h`, not among these sources: no encryption. -/
def kC4EncryptionNone : Int := 0

/-- The `sizeof(outKey->bytes)` of a `C4EncryptionKey`: LiteCore declares
`uint8_t bytes[32]` (`c4Database.h`, not among these sources). -/
def sizeofKeyBytes : Nat := 32

/-- JNI status codes of `jni.h`. -/
def JNI_OK : Int := 0

/-- JNI status code of `jni.h`: the thread is detached from the VM. -/
def JNI_EDETACHED : Int := -2

/-- JNI status code of `jni.h`: the JNI version is not supported. -/
def JNI_EVERSION : Int := -3

/-- JNI status code of `jni.h`: unspecified failure. -/
def JNI_ERR : Int := -1

/-- A Java exception object, as far as the glue can tell them apart. -/
inductive JThrowable where
  | liteCoreException (domain code : Int) (msg : Option (List Nat))
  | outOfMemoryError
  | other (tag : Nat)
deriving DecidableEq, Repr

/-- What the glue does that the properties observe, in the order it happens.
`throwError` and `nativeError` are bookkeeping: they record that the glue called
`throwError(env, error)` and that a LiteCore call handed `error` to the glue. -/
inductive Event where
  | throwError (error : C4Error)
  | nativeError (error : C4Error)
  | NewString (chars : List Nat) (ok : Bool)
  | NewStringUTF (bytes : Option (List Nat))
  | throwException (domain code : Int) (msg : Option (List Nat))
  | logCallback (domainName : Option (List Nat)) (level : Int) (message : Option (List Nat))
  | AttachCurrentThread (status : Int)
  | DetachCurrentThread (status : Int)
  | GetStringLength
  | GetStringChars (ok : Bool)
  | ReleaseStringChars
  | logError
  | C4Warn
deriving DecidableEq, Repr

/-- The JNI environment of the calling thread: the pending Java exception
(`ExceptionOccurred`), whether the VM is out of memory for `NewString`, whether
`GetStringLength`, `GetStringChars`, `NewGlobalRef`, `GetStaticMethodID` and
`GetByteArrayElements` fail, and the log of events so far. -/
structure JNIEnv where
  pending : Option JThrowable
  newStringFails : Bool
  getStringLengthFails : Bool
  getStringCharsFails : Bool
  newGlobalRefFails : Bool
  getStaticMethodIDFails : Bool
  getByteArrayElementsFails : Bool
  log : List Event
deriving DecidableEq, Repr

/-- The `C4LogFileOptions` of LiteCore, in the order the glue fills them in;
`log_level` is of the signed 8-bit enumeration type `C4LogLevel`. -/
structure C4LogFileOptions where
  log_level : Int
  base_path : Option (List Nat)
  max_size_bytes : Int
  max_rotate_count : Int
  use_plaintext : Bool
  header : Option (List Nat)
deriving DecidableEq, Repr

/-- What lies outside these sources and is not the Java VM: the build
configuration, the C++ heap, LiteCore and the VM's Modified UTF-8 codec.
* `msvc`: the file is compiled with `_MSC_VER` defined;
* `bad_alloc`: the conversion in `UTF8ToJstring` runs out of heap;
* `c4error_getMessage`: LiteCore's message for an error, as a slice;
* `c4error_make_info`: the `internal_info` that `c4error_make` stores;
* `c4log_getDomainName`: the name of a log domain, a C string or `NULL`;
* `decodeModifiedUTF8`: the Java string `NewStringUTF` builds from a C string;
* `c4log_writeToBinaryFile`: `none` on success, else the error it reports. -/
structure Native where
  msvc : Bool
  bad_alloc : Bool
  c4error_getMessage : C4Error → Option (List Nat)
  c4error_make_info : Int → Int → Int
  c4log_getDomainName : Nat → Option (List Nat)
  decodeModifiedUTF8 : List Nat → List Nat
  c4log_writeToBinaryFile : C4LogFileOptions → Option C4Error

/-- Appends an event to the log. -/
def JNIEnv.record (env : JNIEnv) (e : Event) : JNIEnv :=
  { env with log := env.log ++ [e] }

/-- JNI `NewString`: a new Java string with the given UTF-16 code units, or
`NULL` with an `OutOfMemoryError` pending when the VM cannot allocate it. -/
def JNIEnv.NewString (env : JNIEnv) (chars : List Nat) : Option (List Nat) × JNIEnv :=
  if env.newStringFails then
    (none, { env with
              pending := if env.pending.isSome then env.pending
                         else some JThrowable.outOfMemoryError,
              log := env.log ++ [Event.NewString chars false] })
  else (some chars, env.record (Event.NewString chars true))

/-- JNI `GetStringLength`: the number of UTF-16 code units of the string (a
negative number when the VM reports failure). -/
def JNIEnv.GetStringLength (env : JNIEnv) (jstr : List Nat) : Int :=
  if env.getStringLengthFails then -1 else (jstr.length : Int)

/-- JNI `GetStringChars`: the code units of the string, or `NULL`. -/
def JNIEnv.GetStringChars (env : JNIEnv) (jstr : List Nat) : Option (List Nat) :=
  if env.getStringCharsFails then none else some jstr

/-- JNI `GetByteArrayElements` (and `GetPrimitiveArrayCritical`): the elements
of the array, or `NULL` when the VM cannot hand them out; the failure itself
leaves nothing pending. -/
def JNIEnv.GetByteArrayElements (env : JNIEnv) (jbytes : List Nat) : Option (List Nat) :=
  if env.getByteArrayElementsFails then none else some jbytes

/-- Modelled from the spec: the Java method `LiteCoreException.throwException`
is not among these sources; the glue's header says the call "sets a Java
exception based on the LiteCore error". `CallStaticVoidMethod` on it is logged
and leaves a `LiteCoreException` pending (an exception that is already pending
stays). -/
def JNIEnv.CallStaticVoidMethod_throwException (env : JNIEnv) (domain code : Int)
    (msg : Option (List Nat)) : JNIEnv :=
  { env with
      pending := if env.pending.isSome then env.pending
                 else some (JThrowable.liteCoreException domain code msg),
      log := env.log ++ [Event.throwException domain code msg] }

/-- The cast `(jint) x` of a 32-bit value to the signed 32-bit `jint`: the
value itself when it fits, else the value with the same 32 bits. -/
def toJint (x : Int) : Int := (x + 2147483648) % 4294967296 - 2147483648

/-- A C string: the bytes before the first NUL (`strlen`, `operator=(const
char16_t*)`). -/
def cstr (s : List Nat) : List Nat := s.takeWhile (fun c => c != 0)

/-! ## `native_glue.cc` -/

mutual
/-- Source function `UTF8ToJstring(env, s, size)`; `s` is the list of the `size` bytes at the
pointer. `fuel` bounds the depth of the mutual recursion with `throwError`;
`none` is returned when it is used up. -/
def UTF8ToJstring (fuel : Nat) (N : Native) (env : JNIEnv) (s : List Nat) :
    Option (Option (List Nat) × JNIEnv) :=
  match fuel with
  | 0 => none
  | fuel + 1 =>
    if N.bad_alloc then
      (throwError' fuel N env ⟨LiteCoreDomain, kC4ErrorMemoryError, 0⟩).map (fun e => (none, e))
    else
      match from_bytes s with
      | none =>
        (throwError' fuel N env ⟨LiteCoreDomain, kC4ErrorCorruptData, 0⟩).map
          (fun e => (none, e))
      | some tmpstr =>
        match env.NewString (if N.msvc then cstr tmpstr else tmpstr) with
        | (none, env1) =>
          (throwError' fuel N env1 ⟨LiteCoreDomain, kC4ErrorMemoryError, 0⟩).map
            (fun e => (none, e))
        | (some jstr, env1) => some (some jstr, env1)
/-- Source function `toJString(env, slice)`. -/
def toJString (fuel : Nat) (N : Native) (env : JNIEnv) (s : Option (List Nat)) :
    Option (Option (List Nat) × JNIEnv) :=
  match fuel with
  | 0 => none
  | fuel + 1 =>
    match s with
    | none => some (none, env)
    | some buf => UTF8ToJstring fuel N env buf
/-- Source function `throwError(env, error)` (the name is a reserved word of Lean, hence the
prime). The lookups of the class and of the method are asserted to succeed. -/
def throwError' (fuel : Nat) (N : Native) (env : JNIEnv) (error : C4Error) : Option JNIEnv :=
  match fuel with
  | 0 => none
  | fuel + 1 =>
    if (env.record (Event.throwError error)).pending.isSome then
      some (env.record (Event.throwError error))
    else
      match toJString fuel N (env.record (Event.throwError error))
          (N.c4error_getMessage error) with
      | none => none
      | some (msg, env1) =>
        some (env1.CallStaticVoidMethod_throwException (toJint error.domain)
          (toJint error.code) msg)
end

/-- Source function `JstringToUTF8(env, jstr)` for a non-null `jstr`: the
string returned and the environment afterwards, in which the JNI calls made
(`GetStringLength`, `GetStringChars`, `ReleaseStringChars`) are logged. The
`std::range_error` of the codec is caught and gives the empty string. -/
def JstringToUTF8 (env : JNIEnv) (jstr : List Nat) : List Nat × JNIEnv :=
  if env.GetStringLength jstr < 0 then ([], env.record Event.GetStringLength)
  else
    match env.GetStringChars jstr with
    | none =>
      ([], ((env.record Event.GetStringLength).record (Event.GetStringChars false)).record
              Event.ReleaseStringChars)
    | some chars =>
      match to_bytes (chars.take (env.GetStringLength jstr).toNat) with
      | some str =>
        (str, ((env.record Event.GetStringLength).record (Event.GetStringChars true)).record
                Event.ReleaseStringChars)
      | none =>
        ([], ((env.record Event.GetStringLength).record (Event.GetStringChars true)).record
                Event.ReleaseStringChars)

/-- Function `FLStr(const char*)` of Fleece (`fleece/FLSlice.h`, a library outside these
sources): the slice from the pointer up to, not including, the first NUL. -/
def FLStr (str : List Nat) : Option (List Nat) := some (cstr str)

/-- The constructor `jstringSlice::jstringSlice(env, js)`: the `_slice` member
of the new object, and the environment. -/
def jstringSlice (env : JNIEnv) (js : Option (List Nat)) : Option (List Nat) × JNIEnv :=
  match js with
  | some j => (FLStr (JstringToUTF8 env j).1, (JstringToUTF8 env j).2)
  | none => (none, env)

/-- The constructor `jbyteArraySlice::jbyteArraySlice(env, jbytes, length,
critical)`: the `_slice` member of the new object. The pointer the VM hands out
is stored unchecked, so the slice has a null buffer also when the VM hands out
`NULL`. -/
def jbyteArraySliceLen (env : JNIEnv) (jbytes : Option (List Nat)) (length : Nat) :
    Option (List Nat) :=
  match jbytes with
  | none => none
  | some data =>
    if length ≤ 0 then none
    else (env.GetByteArrayElements data).map (fun d => d.take length)

/-- The constructor `jbyteArraySlice::jbyteArraySlice(env, jbytes, critical)`. -/
def jbyteArraySlice (env : JNIEnv) (jbytes : Option (List Nat)) : Option (List Nat) :=
  jbyteArraySliceLen env jbytes (match jbytes with | none => 0 | some a => a.length)

/-- The `C4EncryptionKey` of LiteCore: an algorithm, of the unsigned 32-bit
enumeration type `C4EncryptionAlgorithm`, and `bytes[32]`. -/
structure C4EncryptionKey where
  algorithm : Nat
  bytes : List Nat
deriving DecidableEq, Repr

/-- The cast `(C4EncryptionAlgorithm) keyAlg` of a `jint` to the unsigned 32-bit
enumeration type. -/
def toC4EncryptionAlgorithm (keyAlg : Int) : Nat := (keyAlg % 4294967296).toNat

/-- C `memset(dst, c, n)` on a byte array. -/
def memset (dst : List Nat) (c n : Nat) : List Nat := List.replicate n c ++ dst.drop n

/-- C `memcpy(dst, src, n)` on byte arrays. -/
def memcpy (dst src : List Nat) (n : Nat) : List Nat := src.take n ++ dst.drop n

/-- Source function `getEncryptionKey(env, keyAlg, jKeyBytes, outKey)`: the
returned flag, the key structure after the call and the environment. -/
def getEncryptionKey (fuel : Nat) (N : Native) (env : JNIEnv) (keyAlg : Int)
    (jKeyBytes : Option (List Nat)) (outKey : C4EncryptionKey) :
    Option (Bool × C4EncryptionKey × JNIEnv) :=
  if keyAlg ≠ kC4EncryptionNone then
    match jbyteArraySlice env jKeyBytes with
    | none =>
      (throwError' fuel N env ⟨LiteCoreDomain, kC4ErrorCrypto, 0⟩).map
        (fun e => (false, { outKey with algorithm := toC4EncryptionAlgorithm keyAlg }, e))
    | some buf =>
      if buf.length > sizeofKeyBytes then
        (throwError' fuel N env ⟨LiteCoreDomain, kC4ErrorCrypto, 0⟩).map
          (fun e => (false, { outKey with algorithm := toC4EncryptionAlgorithm keyAlg }, e))
      else
        some (true,
          { algorithm := toC4EncryptionAlgorithm keyAlg,
            bytes := memcpy (memset outKey.bytes 0 sizeofKeyBytes) buf buf.length },
          env)
  else some (true, { outKey with algorithm := toC4EncryptionAlgorithm keyAlg }, env)

/-! ## `native_c4.cc` -/

/-- The cast `(C4LogLevel) jlevel` of a `jint` to the signed 8-bit enumeration
type. -/
def toC4LogLevel (jlevel : Int) : Int := (jlevel + 128) % 256 - 128

/-- Source function `Java_com_couchbase_lite_internal_core_C4Log_writeToBinaryFile`. -/
def writeToBinaryFile (fuel : Nat) (N : Native) (env : JNIEnv) (jpath : Option (List Nat))
    (jlevel jmaxrotatecount jmaxsize : Int) (juseplaintext : Bool)
    (jheader : Option (List Nat)) : Option JNIEnv :=
  match N.c4log_writeToBinaryFile
      { log_level := toC4LogLevel jlevel
        base_path := (jstringSlice env jpath).1
        max_size_bytes := jmaxsize
        max_rotate_count := jmaxrotatecount
        use_plaintext := juseplaintext
        header := (jstringSlice (jstringSlice env jpath).2 jheader).1 } with
  | none => some (jstringSlice (jstringSlice env jpath).2 jheader).2
  | some err =>
    throwError' fuel N
      ((jstringSlice (jstringSlice env jpath).2 jheader).2.record (Event.nativeError err)) err

/-- The Java VM as the calling thread sees it: whether the thread is attached,
whether the VM supports `JNI_VERSION_1_6`, whether attaching and detaching
fail, and the JNI environment the thread has (or gets by attaching). -/
structure JavaVM where
  attached : Bool
  versionSupported : Bool
  attachFails : Bool
  detachFails : Bool
  env : JNIEnv
deriving DecidableEq, Repr

/-- JNI `JavaVM::GetEnv(&env, JNI_VERSION_1_6)`. -/
def JavaVM.GetEnv (vm : JavaVM) : Int :=
  if !vm.attached then JNI_EDETACHED
  else if !vm.versionSupported then JNI_EVERSION
  else JNI_OK

/-- Source function `attachCurrentThread(&env)`, that is `gJVM->AttachCurrentThread`: the status
and the VM afterwards. -/
def attachCurrentThread (vm : JavaVM) : Int × JavaVM :=
  if vm.attachFails then
    (JNI_ERR, { vm with env := vm.env.record (Event.AttachCurrentThread JNI_ERR) })
  else
    (0, { vm with attached := true, env := vm.env.record (Event.AttachCurrentThread 0) })

/-- JNI `gJVM->DetachCurrentThread()`: the status and the VM afterwards. -/
def JavaVM.DetachCurrentThread (vm : JavaVM) : Int × JavaVM :=
  if vm.detachFails then
    (JNI_ERR, { vm with env := vm.env.record (Event.DetachCurrentThread JNI_ERR) })
  else
    (0, { vm with attached := false, env := vm.env.record (Event.DetachCurrentThread 0) })

/-- Lines 237 to 241 of `logCallback`: the thread is detached again when
`GetEnv` had found it detached on entry. -/
def logCallback_detach (vm : JavaVM) (getEnvStat : Int) : JavaVM :=
  if getEnvStat = JNI_EDETACHED then
    if vm.DetachCurrentThread.1 ≠ 0 then
      { vm.DetachCurrentThread.2 with env := vm.DetachCurrentThread.2.env.record Event.C4Warn }
    else vm.DetachCurrentThread.2
  else vm

/-- Lines 227 to 241 of `logCallback`: what it does once it holds a JNI
environment, `getEnvStat` being the status `GetEnv` returned on entry. -/
def logCallback_deliver (fuel : Nat) (N : Native) (vm : JavaVM) (getEnvStat : Int)
    (domain : Nat) (level : Int) (fmt : List Nat) : Option JavaVM :=
  if vm.env.pending.isSome then
    some { vm with env := vm.env.record Event.logError }
  else
    match UTF8ToJstring fuel N vm.env (cstr fmt) with
    | none => none
    | some (message, env1) =>
      some (logCallback_detach
        { vm with env :=
            ((env1.record (Event.NewStringUTF (N.c4log_getDomainName domain))).record
              (Event.logCallback ((N.c4log_getDomainName domain).map N.decodeModifiedUTF8)
                level message)) }
        getEnvStat)

/-- The static function `logCallback(domain, level, fmt, args)` that LiteCore
calls for every log message: the VM afterwards. -/
def logCallback (fuel : Nat) (N : Native) (vm : JavaVM) (domain : Nat) (level : Int)
    (fmt : List Nat) : Option JavaVM :=
  if vm.GetEnv = JNI_EDETACHED then
    if (attachCurrentThread vm).1 ≠ 0 then
      some { (attachCurrentThread vm).2 with
               env := (attachCurrentThread vm).2.env.record Event.logError }
    else logCallback_deliver fuel N (attachCurrentThread vm).2 vm.GetEnv domain level fmt
  else if vm.GetEnv ≠ JNI_OK then
    some { vm with env := vm.env.record Event.logError }
  else logCallback_deliver fuel N vm vm.GetEnv domain level fmt

/-- The file-level statics `cls_C4Log` and `m_C4Log_logCallback`. -/
structure Statics where
  cls_C4Log : Option Nat
  m_C4Log_logCallback : Option Nat
deriving DecidableEq, Repr

/-- Function `c4error_make(domain, code, message)` of LiteCore: the error with that
domain and code. -/
def c4error_make (N : Native) (domain code : Int) : C4Error :=
  ⟨domain, code, N.c4error_make_info domain code⟩

/-- JNI `NewGlobalRef`: a global reference to the object, or `NULL`. -/
def JNIEnv.NewGlobalRef (env : JNIEnv) (obj : Nat) : Option Nat :=
  if env.newGlobalRefFails then none else some obj

/-- JNI `GetStaticMethodID` for `logCallback`: a method id, or `NULL` when the
lookup fails or there is no class to look in. -/
def JNIEnv.GetStaticMethodID (env : JNIEnv) (cls : Option Nat) : Option Nat :=
  if env.getStaticMethodIDFails then none else cls

/-- Lines 258 to 267 of `setCallbackLevel`, run when `cls_C4Log` was null on
entry and has just been assigned. -/
def setCallbackLevel_register (fuel : Nat) (N : Native) (env : JNIEnv) (cls : Option Nat) :
    Option (Statics × JNIEnv) :=
  if (env.GetStaticMethodID cls).isNone then
    (throwError' fuel N env (c4error_make N LiteCoreDomain kC4ErrorUnexpectedError)).map
      (fun e => (⟨cls, env.GetStaticMethodID cls⟩, e))
  else some (⟨cls, env.GetStaticMethodID cls⟩, env)

/-- Source function `Java_com_couchbase_lite_internal_core_C4Log_setCallbackLevel`: the statics
and the environment afterwards. -/
def setCallbackLevel (fuel : Nat) (N : Native) (st : Statics) (env : JNIEnv) (clazz : Nat) :
    Option (Statics × JNIEnv) :=
  if st.cls_C4Log.isNone then
    if (env.NewGlobalRef clazz).isNone then
      match throwError' fuel N env (c4error_make N LiteCoreDomain kC4ErrorUnexpectedError) with
      | none => none
      | some env1 => setCallbackLevel_register fuel N env1 (env.NewGlobalRef clazz)
    else setCallbackLevel_register fuel N env (env.NewGlobalRef clazz)
  else some (st, env)

/-- The digests of `mbedtls/md.h` that matter here. -/
inductive mbedtls_md_type_t where
  | MBEDTLS_MD_SHA1
  | MBEDTLS_MD_SHA256
deriving DecidableEq, Repr

/-- The crypto library mbed TLS and the VM calls of `C4Key.pbkdf2`, both
outside these sources.
* `md_info_from_type`: whether `mbedtls_md_info_from_type` finds the digest
  (it returns `NULL` for a digest that is not built in);
* `md_setup`: the status of `mbedtls_md_setup`;
* `pkcs5_pbkdf2_hmac d password salt iterations keyLen`: the status of
  `mbedtls_pkcs5_pbkdf2_hmac` and the content it leaves in the output buffer,
  byte by index; `iterations` is its `unsigned int` parameter;
* `GetStringUTFChars`: the Modified UTF-8 bytes of a Java string, or `NULL`;
* `newByteArrayFails`: whether `NewByteArray` returns `NULL`. -/
structure MbedTLS where
  md_info_from_type : mbedtls_md_type_t → Bool
  md_setup : mbedtls_md_type_t → Int
  pkcs5_pbkdf2_hmac : mbedtls_md_type_t → List Nat → List Nat → Nat → Nat → Int × (Nat → Nat)
  GetStringUTFChars : List Nat → Option (List Nat)
  newByteArrayFails : Bool

/-- One call of `mbedtls_pkcs5_pbkdf2_hmac`, with its arguments. -/
structure Pbkdf2Call where
  digest : mbedtls_md_type_t
  password : List Nat
  salt : List Nat
  iterations : Nat
  keyLen : Nat
deriving DecidableEq, Repr

/-- What `C4Key.pbkdf2` returns (`none` is Java `null`) and the derivations it
made on the way. -/
structure Pbkdf2Outcome where
  result : Option (List Nat)
  derivations : List Pbkdf2Call
deriving DecidableEq, Repr

/-- The conversion of the `int` iteration count to the `unsigned int` parameter
of `mbedtls_pkcs5_pbkdf2_hmac`. -/
def toUnsignedInt (n : Int) : Nat := (n % 4294967296).toNat

/-- The password bytes the derivation reads: the first
`GetStringLength(jpassword)` bytes of the Modified UTF-8 buffer that
`GetStringUTFChars` returned; no byte is read of an empty password; `none` when
bytes would be read through the `NULL` that `GetStringUTFChars` returned. -/
def passwordBytes (M : MbedTLS) (pw : List Nat) : Option (List Nat) :=
  match M.GetStringUTFChars pw with
  | some buffer => some (buffer.take pw.length)
  | none => if pw.length = 0 then some [] else none

/-- Source function `Java_com_couchbase_lite_internal_core_C4Key_pbkdf2`. The
outer `none` stands for a call that does not return to Java in the ordinary
way: the C++ exception `new unsigned char[keyLen]` throws on a negative length,
the derivation reading the password through the `NULL` that
`GetStringUTFChars` returned, and `SetByteArrayRegion` on the `NULL` that
`NewByteArray` returned. -/
def pbkdf2 (M : MbedTLS) (jpassword jsalt : Option (List Nat)) (jiteration jkeyLen : Int) :
    Option Pbkdf2Outcome :=
  match jpassword, jsalt with
  | some pw, some salt =>
    if jkeyLen < 0 then none
    else
      if M.md_info_from_type mbedtls_md_type_t.MBEDTLS_MD_SHA1 = false then some ⟨none, []⟩
      else if M.md_setup mbedtls_md_type_t.MBEDTLS_MD_SHA1 = 0 then
        match passwordBytes M pw with
        | none => none
        | some password =>
          if (M.pkcs5_pbkdf2_hmac mbedtls_md_type_t.MBEDTLS_MD_SHA1
                password salt (toUnsignedInt jiteration) jkeyLen.toNat).1 ≠ 0 then
            some ⟨none, [⟨mbedtls_md_type_t.MBEDTLS_MD_SHA1, password, salt,
                          toUnsignedInt jiteration, jkeyLen.toNat⟩]⟩
          else if M.newByteArrayFails then none
          else
            some ⟨some ((List.range jkeyLen.toNat).map
                      (M.pkcs5_pbkdf2_hmac mbedtls_md_type_t.MBEDTLS_MD_SHA1
                        password salt (toUnsignedInt jiteration) jkeyLen.toNat).2),
                  [⟨mbedtls_md_type_t.MBEDTLS_MD_SHA1, password, salt,
                    toUnsignedInt jiteration, jkeyLen.toNat⟩]⟩
      else some ⟨none, []⟩
  | _, _ => some ⟨none, []⟩

/-! ## Assumptions on the collaborators, and the closed form of `throwError` -/

/-- A LiteCore message the glue can turn into a Java string: a null slice, or
bytes the codec accepts. -/
def messageOK (msg : Option (List Nat)) : Prop :=
  msg = none ∨ ∃ buf u, msg = some buf ∧ from_bytes buf = some u

/-- The collaborators behave: the C++ heap is not exhausted and every message
LiteCore hands out is null or UTF-8 text. -/
def Native.benign (N : Native) : Prop :=
  N.bad_alloc = false ∧ ∀ e, messageOK (N.c4error_getMessage e)

/-- The Java string `toJString` makes of a LiteCore message when `NewString`
succeeds: `none` for a null slice. -/
def messageString (N : Native) (msg : Option (List Nat)) : Option (List Nat) :=
  match msg with
  | none => none
  | some buf =>
    match from_bytes buf with
    | none => none
    | some tmpstr => some (if N.msvc then cstr tmpstr else tmpstr)

/-- What `throwError` leaves behind when the collaborators behave, without
recursion: used to reason about `throwError'`, which it equals from fuel 4 on
(`throwError_eq_closed`). -/
def throwErrorClosed (N : Native) (env : JNIEnv) (error : C4Error) : JNIEnv :=
  if env.pending.isSome then env.record (Event.throwError error)
  else
    match N.c4error_getMessage error with
    | none =>
      (env.record (Event.throwError error)).CallStaticVoidMethod_throwException
        (toJint error.domain) (toJint error.code) none
    | some buf =>
      match from_bytes buf with
      | none => env
      | some tmpstr =>
        if env.newStringFails then
          ((((env.record (Event.throwError error)).NewString
              (if N.msvc then cstr tmpstr else tmpstr)).2.record
            (Event.throwError ⟨LiteCoreDomain, kC4ErrorMemoryError, 0⟩))
          ).CallStaticVoidMethod_throwException (toJint error.domain) (toJint error.code)
            none
        else
          (((env.record (Event.throwError error)).NewString
              (if N.msvc then cstr tmpstr else tmpstr)).2
          ).CallStaticVoidMethod_throwException (toJint error.domain) (toJint error.code)
            (some (if N.msvc then cstr tmpstr else tmpstr))

/-- The message can be turned into a Java string: it is null, or it is bytes
the codec accepts while the C++ heap and the VM have memory for the string. -/
def messageConverts (N : Native) (env : JNIEnv) (msg : Option (List Nat)) : Prop :=
  msg = none
    ∨ (N.bad_alloc = false ∧ env.newStringFails = false
        ∧ ∃ buf u, msg = some buf ∧ from_bytes buf = some u)

/-- The key is refused by `getEncryptionKey`: the algorithm is not
`kC4EncryptionNone` and the key array is null, empty, longer than the 32 bytes
of `outKey->bytes`, or the VM does not hand out its elements. -/
def keyRefused (env : JNIEnv) (keyAlg : Int) (jKeyBytes : Option (List Nat)) : Prop :=
  keyAlg ≠ kC4EncryptionNone
    ∧ (jKeyBytes = none
        ∨ ∃ a, jKeyBytes = some a
            ∧ (a.length = 0 ∨ env.getByteArrayElementsFails = true ∨ 32 < a.length))

/-! ## Reading the log -/

/-- The calls of `LiteCoreException.throwException` in a log, with their
arguments. -/
def throwExceptionCalls (log : List Event) : List (Int × Int × Option (List Nat)) :=
  log.filterMap (fun ev =>
    match ev with
    | Event.throwException d c m => some (d, c, m)
    | _ => none)

/-- The errors the glue passed to `throwError`, in order. -/
def thrownErrors (log : List Event) : List C4Error :=
  log.filterMap (fun ev =>
    match ev with
    | Event.throwError e => some e
    | _ => none)

/-- The errors LiteCore calls handed to the glue, in order. -/
def nativeErrors (log : List Event) : List C4Error :=
  log.filterMap (fun ev =>
    match ev with
    | Event.nativeError e => some e
    | _ => none)

/-- The number of Java strings created (`NewString`, `NewStringUTF`). -/
def stringsCreated (log : List Event) : Nat :=
  log.countP (fun ev =>
    match ev with
    | Event.NewString _ _ => true
    | Event.NewStringUTF _ => true
    | _ => false)

/-- The number of calls of the Java method `C4Log.logCallback`. -/
def logCallbackCalls (log : List Event) : Nat :=
  log.countP (fun ev =>
    match ev with
    | Event.logCallback _ _ _ => true
    | _ => false)

/-- The `AttachCurrentThread` and `DetachCurrentThread` calls of a log, in
order. -/
def threadCalls (log : List Event) : List Event :=
  log.filter (fun ev =>
    match ev with
    | Event.AttachCurrentThread _ => true
    | Event.DetachCurrentThread _ => true
    | _ => false)

/-- An error whose domain and code the glue chose itself: the LiteCore domain
with one of the four codes the glue writes down in its own source. -/
def chosenByGlue (x : C4Error) : Prop :=
  x.domain = LiteCoreDomain
    ∧ (x.code = kC4ErrorMemoryError ∨ x.code = kC4ErrorCorruptData
        ∨ x.code = kC4ErrorCrypto ∨ x.code = kC4ErrorUnexpectedError)

/-! ## Sample worlds for the worked examples -/

/-- A LiteCore whose messages are the two bytes `"ok"`, built without
`_MSC_VER`, with heap to spare. -/
def sampleNative : Native :=
  { msvc := false
    bad_alloc := false
    c4error_getMessage := fun _ => some [0x6F, 0x6B]
    c4error_make_info := fun _ _ => 0
    c4log_getDomainName := fun _ => some [0x44, 0x42]
    decodeModifiedUTF8 := fun s => s
    c4log_writeToBinaryFile := fun _ => none }

/-- The same LiteCore, the glue compiled with `_MSC_VER` defined. -/
def sampleNativeMSVC : Native := { sampleNative with msvc := true }

/-- A JNI environment with nothing pending, nothing logged and no failures. -/
def freshEnv : JNIEnv :=
  { pending := none
    newStringFails := false
    getStringLengthFails := false
    getStringCharsFails := false
    newGlobalRefFails := false
    getStaticMethodIDFails := false
    getByteArrayElementsFails := false
    log := [] }

/-- A JNI environment in which some Java exception is already pending. -/
def pendingEnv : JNIEnv := { freshEnv with pending := some (JThrowable.other 0) }

/-- A thread that is detached from the VM, can be attached and detached, and
whose environment reports a pending exception once it is attached. -/
def detachedPendingVM : JavaVM :=
  { attached := false
    versionSupported := true
    attachFails := false
    detachFails := false
    env := pendingEnv }

/-- A thread that is detached from the VM, can be attached and detached, with
nothing pending. -/
def detachedVM : JavaVM := { detachedPendingVM with env := freshEnv }

/-- A JNI environment in which the VM does not hand out the elements of byte
arrays. -/
def noElementsEnv : JNIEnv := { freshEnv with getByteArrayElementsFails := true }

/-- A LiteCore whose message for the error (`LiteCoreDomain`, 7) is the single
byte `80`, which is not UTF-8; every other message is `"ok"`. -/
def badMessageNative : Native :=
  { sampleNative with
    c4error_getMessage := fun e =>
      if e.domain = LiteCoreDomain ∧ e.code = 7 then some [0x80] else some [0x6F, 0x6B] }

/-- A thread that is attached to the VM, with nothing pending. -/
def attachedVM : JavaVM := { detachedVM with attached := true }

/-- An mbed TLS for the examples: SHA-1 is built in, the setup succeeds, and
the derivation succeeds and fills the buffer with the bytes 1, 2, 3, ... -/
def sampleMbedTLS : MbedTLS :=
  { md_info_from_type := fun _ => true
    md_setup := fun _ => 0
    pkcs5_pbkdf2_hmac := fun _ _ _ _ _ => (0, fun i => i + 1)
    GetStringUTFChars := fun s => some s
    newByteArrayFails := false }


/-- The same mbed TLS with a VM that has no memory for the result array. -/
def noArrayMbedTLS : MbedTLS := { sampleMbedTLS with newByteArrayFails := true }

/-- The same mbed TLS with a VM that does not hand out the password's
characters. -/
def noCharsMbedTLS : MbedTLS := { sampleMbedTLS with GetStringUTFChars := fun _ => none }

/-! ## The codec: unfolding and arithmetic -/

theorem to_bytes_cons (u0 : Nat) (rest : List Nat) :
    to_bytes (u0 :: rest) =
      if u0 < 0xD800 || (0xE000 ≤ u0 && u0 < 0x10000) then
        (to_bytes rest).map (fun s => utf8Bytes u0 ++ s)
      else if u0 < 0xDC00 then
        match rest with
        | u1 :: r1 =>
          if 0xDC00 ≤ u1 && u1 < 0xE000 then
            (to_bytes r1).map
              (fun s => utf8Bytes (0x10000 + (u0 - 0xD800) * 0x400 + (u1 - 0xDC00)) ++ s)
          else none
        | [] => some []
      else none := by
  rw [to_bytes.eq_def]

theorem to_bytes_units (c : Nat) (hc : isScalar c = true) (rest : List Nat) :
    to_bytes (utf16Units c ++ rest) = (to_bytes rest).map (fun s => utf8Bytes c ++ s) := by
  unfold isScalar at hc
  simp only [Bool.or_eq_true, Bool.and_eq_true, decide_eq_true_eq] at hc
  unfold utf16Units
  by_cases h : c < 0x10000
  · rw [if_pos h]
    have h1 : (decide (c < 0xD800) || (decide (0xE000 ≤ c) && decide (c < 0x10000))) = true := by
      simp only [Bool.or_eq_true, Bool.and_eq_true, decide_eq_true_eq]; omega
    rw [List.singleton_append, to_bytes_cons, if_pos h1]
  · rw [if_neg h]
    have h1 : (decide (0xD800 + (c - 0x10000) / 0x400 < 0xD800) ||
        (decide (0xE000 ≤ 0xD800 + (c - 0x10000) / 0x400) &&
          decide (0xD800 + (c - 0x10000) / 0x400 < 0x10000))) = false := by
      simp only [Bool.or_eq_false_iff, Bool.and_eq_false_iff, decide_eq_false_iff_not]; omega
    have h2 : 0xD800 + (c - 0x10000) / 0x400 < 0xDC00 := by omega
    have h3 : (decide (0xDC00 ≤ 0xDC00 + (c - 0x10000) % 0x400) &&
        decide (0xDC00 + (c - 0x10000) % 0x400 < 0xE000)) = true := by
      simp only [Bool.and_eq_true, decide_eq_true_eq]; omega
    have h4 : 0x10000 + (0xD800 + (c - 0x10000) / 0x400 - 0xD800) * 0x400 +
        (0xDC00 + (c - 0x10000) % 0x400 - 0xDC00) = c := by omega
    rw [List.cons_append, List.cons_append, List.nil_append, to_bytes_cons, h1, if_neg (by simp), if_pos h2]
    simp only [h3, h4, if_true]


theorem utf8Bytes_two (b0 b1 : Nat) (h0 : 0xC2 ≤ b0) (h0' : b0 < 0xE0)
    (h1 : isCont b1 = true) :
    utf8Bytes ((b0 - 0xC0) * 0x40 + (b1 - 0x80)) = [b0, b1] := by
  simp only [isCont, Bool.and_eq_true, decide_eq_true_eq] at h1
  generalize hc : (b0 - 0xC0) * 0x40 + (b1 - 0x80) = c
  have e0 : 0xC0 + c / 0x40 = b0 := by omega
  have e1 : 0x80 + c % 0x40 = b1 := by omega
  unfold utf8Bytes
  rw [if_neg (by omega), if_pos (by omega), e0, e1]

theorem utf8Bytes_three (b0 b1 b2 : Nat) (h0 : 0xE0 ≤ b0) (h0' : b0 < 0xF0)
    (h1 : isCont b1 = true) (h2 : isCont b2 = true)
    (hlo : 0x800 ≤ (b0 - 0xE0) * 0x1000 + (b1 - 0x80) * 0x40 + (b2 - 0x80)) :
    utf8Bytes ((b0 - 0xE0) * 0x1000 + (b1 - 0x80) * 0x40 + (b2 - 0x80)) = [b0, b1, b2] := by
  simp only [isCont, Bool.and_eq_true, decide_eq_true_eq] at h1 h2
  generalize hc : (b0 - 0xE0) * 0x1000 + (b1 - 0x80) * 0x40 + (b2 - 0x80) = c at hlo
  have e0 : 0xE0 + c / 0x1000 = b0 := by omega
  have e1 : 0x80 + c / 0x40 % 0x40 = b1 := by omega
  have e2 : 0x80 + c % 0x40 = b2 := by omega
  unfold utf8Bytes
  rw [if_neg (by omega), if_neg (by omega), if_pos (by omega), e0, e1, e2]

theorem utf8Bytes_four (b0 b1 b2 b3 : Nat) (h0 : 0xF0 ≤ b0) (h0' : b0 < 0xF5)
    (h1 : isCont b1 = true) (h2 : isCont b2 = true) (h3 : isCont b3 = true)
    (hlo : 0x10000 ≤ (b0 - 0xF0) * 0x40000 + (b1 - 0x80) * 0x1000 + (b2 - 0x80) * 0x40
              + (b3 - 0x80)) :
    utf8Bytes ((b0 - 0xF0) * 0x40000 + (b1 - 0x80) * 0x1000 + (b2 - 0x80) * 0x40
              + (b3 - 0x80)) = [b0, b1, b2, b3] := by
  simp only [isCont, Bool.and_eq_true, decide_eq_true_eq] at h1 h2 h3
  generalize hc : (b0 - 0xF0) * 0x40000 + (b1 - 0x80) * 0x1000 + (b2 - 0x80) * 0x40
              + (b3 - 0x80) = c at hlo
  have e0 : 0xF0 + c / 0x40000 = b0 := by omega
  have e1 : 0x80 + c / 0x1000 % 0x40 = b1 := by omega
  have e2 : 0x80 + c / 0x40 % 0x40 = b2 := by omega
  have e3 : 0x80 + c % 0x40 = b3 := by omega
  unfold utf8Bytes
  rw [if_neg (by omega), if_neg (by omega), if_neg (by omega), e0, e1, e2, e3]


theorem from_bytes_cons (b0 : Nat) (rest : List Nat) :
    from_bytes (b0 :: rest) =
      if b0 < 0x80 then (from_bytes rest).map (fun u => b0 :: u)
      else if b0 < 0xC2 then none
      else if b0 < 0xE0 then
        match rest with
        | [] => some []
        | b1 :: r1 =>
          if isCont b1 then
            (from_bytes r1).map (fun u => utf16Units ((b0 - 0xC0) * 0x40 + (b1 - 0x80)) ++ u)
          else none
      else if b0 < 0xF0 then
        match rest with
        | [] => some []
        | [_] => some []
        | b1 :: b2 :: r2 =>
          if validSecond b0 b1 && isCont b2 then
            (from_bytes r2).map
              (fun u => utf16Units ((b0 - 0xE0) * 0x1000 + (b1 - 0x80) * 0x40 + (b2 - 0x80)) ++ u)
          else none
      else if b0 < 0xF5 then
        match rest with
        | [] => some []
        | [_] => some []
        | [_, _] => some []
        | b1 :: b2 :: b3 :: r3 =>
          if validSecond b0 b1 && isCont b2 && isCont b3 then
            (from_bytes r3).map
              (fun u => utf16Units ((b0 - 0xF0) * 0x40000 + (b1 - 0x80) * 0x1000
                          + (b2 - 0x80) * 0x40 + (b3 - 0x80)) ++ u)
          else none
      else none := by
  cases rest with
  | nil => rfl
  | cons b1 r1 =>
    cases r1 with
    | nil => rfl
    | cons b2 r2 =>
      cases r2 with
      | nil => rfl
      | cons b3 r3 => rfl

theorem isScalar_iff (c : Nat) :
    isScalar c = true ↔ c < 0xD800 ∨ (0xE000 ≤ c ∧ c < 0x110000) := by
  simp only [isScalar, Bool.or_eq_true, Bool.and_eq_true, decide_eq_true_eq]

theorem map_eq_some_elim {α β : Type} {f : α → β} {o : Option α} {b : β}
    (h : o.map f = some b) : ∃ a, o = some a ∧ f a = b := by
  cases o with
  | none => simp at h
  | some a => exact ⟨a, rfl, by simpa using h⟩

theorem wellFormedUTF8_cons (b0 : Nat) (rest : List Nat) :
    wellFormedUTF8 (b0 :: rest) =
      if b0 ≤ 0x7F then wellFormedUTF8 rest
      else if b0 < 0xC2 then false
      else if b0 ≤ 0xDF then
        match rest with
        | b1 :: r1 => isCont b1 && wellFormedUTF8 r1
        | _ => false
      else if b0 ≤ 0xEF then
        match rest with
        | b1 :: b2 :: r2 =>
          decide (secondLo b0 ≤ b1) && decide (b1 ≤ secondHi b0) && isCont b2
            && wellFormedUTF8 r2
        | _ => false
      else if b0 ≤ 0xF4 then
        match rest with
        | b1 :: b2 :: b3 :: r3 =>
          decide (secondLo b0 ≤ b1) && decide (b1 ≤ secondHi b0) && isCont b2 && isCont b3
            && wellFormedUTF8 r3
        | _ => false
      else false := by
  cases rest with
  | nil => rfl
  | cons b1 r1 =>
    cases r1 with
    | nil => rfl
    | cons b2 r2 =>
      cases r2 with
      | nil => rfl
      | cons b3 r3 => rfl

theorem secondLo_le (b0 : Nat) : 0x80 ≤ secondLo b0 := by
  unfold secondLo; split_ifs <;> omega

theorem secondHi_le (b0 : Nat) : secondHi b0 ≤ 0xBF := by
  unfold secondHi; split_ifs <;> omega

theorem validSecond_of_range (b0 b1 : Nat)
    (hlo : secondLo b0 ≤ b1) (hhi : b1 ≤ secondHi b0) : validSecond b0 b1 = true := by
  have h1 := secondLo_le b0
  have h2 := secondHi_le b0
  unfold secondLo at hlo
  unfold secondHi at hhi
  simp only [validSecond, isCont, Bool.and_eq_true, Bool.not_eq_true', Bool.and_eq_false_iff,
    decide_eq_true_eq, decide_eq_false_iff_not, beq_eq_false_iff_ne, ne_eq]
  split_ifs at hlo hhi <;> omega

theorem utf16Units_ne_zero (c : Nat) (hc : c ≠ 0) : ∀ x ∈ utf16Units c, x ≠ 0 := by
  intro x hx
  unfold utf16Units at hx
  split_ifs at hx <;> simp at hx <;> omega

/-- On well-formed UTF-8 the codec converts the whole input, converting the
result back gives the input again, and a string without a zero byte becomes a
string without a zero code unit. -/
theorem codec_roundtrip_aux : ∀ (n : Nat) (s : List Nat), s.length ≤ n →
    wellFormedUTF8 s = true →
    ∃ u, from_bytes s = some u ∧ to_bytes u = some s
      ∧ ((∀ b ∈ s, b ≠ 0) → ∀ x ∈ u, x ≠ 0) := by
  intro n
  induction n with
  | zero =>
    intro s hl _
    have hs : s = [] := List.length_eq_zero.mp (Nat.le_zero.mp hl)
    subst hs
    exact ⟨[], rfl, rfl, fun _ x hx => by simp at hx⟩
  | succ n ih =>
    intro s hl h
    cases s with
    | nil => exact ⟨[], rfl, rfl, fun _ x hx => by simp at hx⟩
    | cons b0 rest =>
      rw [wellFormedUTF8_cons] at h
      rw [from_bytes_cons]
      simp only [List.length_cons] at hl
      split_ifs at h with c1 c2 c3 c4 c5
      · obtain ⟨v, hv, hback, hz⟩ := ih rest (by omega) h
        rw [if_pos (by omega), hv]
        refine ⟨b0 :: v, rfl, ?_, ?_⟩
        · have := to_bytes_units b0 ((isScalar_iff _).mpr (by omega)) v
          simp only [utf16Units, if_pos (show b0 < 0x10000 by omega),
            List.singleton_append] at this
          rw [this, hback]
          simp [utf8Bytes, show b0 < 0x80 by omega]
        · intro hnz x hx
          rw [List.mem_cons] at hx
          rcases hx with hx | hx
          · rw [hx]; exact hnz b0 (List.mem_cons_self _ _)
          · exact hz (fun b hb => hnz b (List.mem_cons_of_mem _ hb)) x hx
      · rw [if_neg (by omega), if_neg (by omega), if_pos (by omega)]
        cases rest with
        | nil => simp at h
        | cons b1 r1 =>
          simp only [List.length_cons] at hl
          simp only [Bool.and_eq_true] at h
          obtain ⟨v, hv, hback, hz⟩ := ih r1 (by omega) h.2
          have hd := h.1
          simp only [isCont, Bool.and_eq_true, decide_eq_true_eq] at hd
          simp only []
          rw [if_pos h.1, hv]
          have hs : isScalar ((b0 - 0xC0) * 0x40 + (b1 - 0x80)) = true :=
            (isScalar_iff _).mpr (by omega)
          refine ⟨_, rfl, ?_, ?_⟩
          · rw [to_bytes_units _ hs v, hback, utf8Bytes_two b0 b1 (by omega) (by omega) h.1]
            rfl
          · intro hnz x hx
            rw [List.mem_append] at hx
            rcases hx with hx | hx
            · exact utf16Units_ne_zero _ (by omega) x hx
            · exact hz (fun b hb =>
                hnz b (List.mem_cons_of_mem _ (List.mem_cons_of_mem _ hb))) x hx
      · rw [if_neg (by omega), if_neg (by omega), if_neg (by omega), if_pos (by omega)]
        cases rest with
        | nil => simp at h
        | cons b1 r1 =>
          cases r1 with
          | nil => simp at h
          | cons b2 r2 =>
            simp only [List.length_cons] at hl
            simp only [Bool.and_eq_true, decide_eq_true_eq] at h
            obtain ⟨⟨⟨e1, e2⟩, e3⟩, e4⟩ := h
            obtain ⟨v, hv, hback, hz⟩ := ih r2 (by omega) e4
            have hvs := validSecond_of_range b0 b1 e1 e2
            have hlo := secondLo_le b0
            have hhi := secondHi_le b0
            have hc1 : isCont b1 = true := by
              simp only [isCont, Bool.and_eq_true, decide_eq_true_eq]; omega
            have hd3 := e3
            simp only [isCont, Bool.and_eq_true, decide_eq_true_eq] at hd3
            have hrange : 0x800 ≤ (b0 - 0xE0) * 0x1000 + (b1 - 0x80) * 0x40 + (b2 - 0x80)
                ∧ ¬ (0xD800 ≤ (b0 - 0xE0) * 0x1000 + (b1 - 0x80) * 0x40 + (b2 - 0x80)
                  ∧ (b0 - 0xE0) * 0x1000 + (b1 - 0x80) * 0x40 + (b2 - 0x80) < 0xE000) := by
              unfold secondLo at e1
              unfold secondHi at e2
              split_ifs at e1 e2 <;> omega
            simp only []
            rw [if_pos (by simp [hvs, e3]), hv]
            have hs : isScalar ((b0 - 0xE0) * 0x1000 + (b1 - 0x80) * 0x40 + (b2 - 0x80))
                = true := (isScalar_iff _).mpr (by omega)
            refine ⟨_, rfl, ?_, ?_⟩
            · rw [to_bytes_units _ hs v, hback,
                utf8Bytes_three b0 b1 b2 (by omega) (by omega) hc1 e3 hrange.1]
              rfl
            · intro hnz x hx
              rw [List.mem_append] at hx
              rcases hx with hx | hx
              · exact utf16Units_ne_zero _ (by omega) x hx
              · exact hz (fun b hb => hnz b (List.mem_cons_of_mem _
                  (List.mem_cons_of_mem _ (List.mem_cons_of_mem _ hb)))) x hx
      · rw [if_neg (by omega), if_neg (by omega), if_neg (by omega), if_neg (by omega),
          if_pos (by omega)]
        cases rest with
        | nil => simp at h
        | cons b1 r1 =>
          cases r1 with
          | nil => simp at h
          | cons b2 r2 =>
            cases r2 with
            | nil => simp at h
            | cons b3 r3 =>
              simp only [List.length_cons] at hl
              simp only [Bool.and_eq_true, decide_eq_true_eq] at h
              obtain ⟨⟨⟨⟨e1, e2⟩, e3⟩, e4⟩, e5⟩ := h
              obtain ⟨v, hv, hback, hz⟩ := ih r3 (by omega) e5
              have hvs := validSecond_of_range b0 b1 e1 e2
              have hlo := secondLo_le b0
              have hhi := secondHi_le b0
              have hc1 : isCont b1 = true := by
                simp only [isCont, Bool.and_eq_true, decide_eq_true_eq]; omega
              have hd3 := e3
              have hd4 := e4
              simp only [isCont, Bool.and_eq_true, decide_eq_true_eq] at hd3 hd4
              have hrange : 0x10000 ≤ (b0 - 0xF0) * 0x40000 + (b1 - 0x80) * 0x1000
                    + (b2 - 0x80) * 0x40 + (b3 - 0x80)
                  ∧ (b0 - 0xF0) * 0x40000 + (b1 - 0x80) * 0x1000 + (b2 - 0x80) * 0x40
                    + (b3 - 0x80) < 0x110000 := by
                unfold secondLo at e1
                unfold secondHi at e2
                split_ifs at e1 e2 <;> omega
              simp only []
              rw [if_pos (by simp [hvs, e3, e4]), hv]
              have hs : isScalar ((b0 - 0xF0) * 0x40000 + (b1 - 0x80) * 0x1000
                  + (b2 - 0x80) * 0x40 + (b3 - 0x80)) = true :=
                (isScalar_iff _).mpr (by omega)
              refine ⟨_, rfl, ?_, ?_⟩
              · rw [to_bytes_units _ hs v, hback,
                  utf8Bytes_four b0 b1 b2 b3 (by omega) (by omega) hc1 e3 e4 hrange.1]
                rfl
              · intro hnz x hx
                rw [List.mem_append] at hx
                rcases hx with hx | hx
                · exact utf16Units_ne_zero _ (by omega) x hx
                · exact hz (fun b hb => hnz b (List.mem_cons_of_mem _
                    (List.mem_cons_of_mem _ (List.mem_cons_of_mem _
                      (List.mem_cons_of_mem _ hb))))) x hx

theorem from_bytes_of_wellFormed (s : List Nat) (h : wellFormedUTF8 s = true) :
    ∃ u, from_bytes s = some u ∧ to_bytes u = some s
      ∧ ((∀ b ∈ s, b ≠ 0) → ∀ x ∈ u, x ≠ 0) :=
  codec_roundtrip_aux s.length s (Nat.le_refl _) h

example : from_bytes [0xF0, 0x9F, 0x98, 0x80] = some [0xD83D, 0xDE00] := by decide

example : from_bytes [0x61, 0xE2, 0x82] = some [0x61] := by decide

example : from_bytes [0x61, 0xE2, 0x41] = some [0x61] := by decide

example : from_bytes [0xE2, 0x41, 0x41] = none := by decide

example : from_bytes [0xED, 0xA0, 0x80] = some [0xD800] := by decide

example : from_bytes [0xC0, 0x80] = none := by decide

theorem wellFormedUTF16_cons (u0 : Nat) (rest : List Nat) :
    wellFormedUTF16 (u0 :: rest) =
      if u0 < 0xD800 || (0xE000 ≤ u0 && u0 < 0x10000) then wellFormedUTF16 rest
      else if u0 < 0xDC00 then
        match rest with
        | u1 :: r1 => decide (0xDC00 ≤ u1) && decide (u1 < 0xE000) && wellFormedUTF16 r1
        | [] => false
      else false := by
  cases rest with
  | nil => rfl
  | cons u1 r1 => rfl

theorem codePoints_cons (u0 : Nat) (rest : List Nat) :
    codePoints (u0 :: rest) =
      if 0xD800 ≤ u0 && u0 < 0xDC00 then
        match rest with
        | u1 :: r1 => (0x10000 + (u0 - 0xD800) * 0x400 + (u1 - 0xDC00)) :: codePoints r1
        | [] => [u0]
      else u0 :: codePoints rest := by
  cases rest with
  | nil => rfl
  | cons u1 r1 => rfl

theorem utf8Encode_cons (c : Nat) (cps : List Nat) :
    utf8Encode (c :: cps) = utf8Bytes c ++ utf8Encode cps := by
  simp [utf8Encode]

theorem to_bytes_nil_append (q : List Nat) :
    to_bytes ([] ++ q) = (to_bytes q).map (fun s => utf8Encode (codePoints []) ++ s) := by
  have : (fun s : List Nat => utf8Encode (codePoints []) ++ s) = id := by
    funext s
    simp [codePoints, utf8Encode]
  rw [this]
  simp

theorem utf8Encode_append (p q : List Nat) :
    utf8Encode (p ++ q) = utf8Encode p ++ utf8Encode q := by
  simp [utf8Encode]

/-- The codec's `to_bytes` converts a well-formed prefix to its UTF-8 encoding
and goes on with what follows. -/
theorem to_bytes_append_aux : ∀ (n : Nat) (p q : List Nat), p.length ≤ n →
    wellFormedUTF16 p = true →
    to_bytes (p ++ q) = (to_bytes q).map (fun s => utf8Encode (codePoints p) ++ s) := by
  intro n
  induction n with
  | zero =>
    intro p q hl _
    have hs : p = [] := List.length_eq_zero.mp (Nat.le_zero.mp hl)
    subst hs
    exact to_bytes_nil_append q
  | succ n ih =>
    intro p q hl h
    cases p with
    | nil => exact to_bytes_nil_append q
    | cons u0 rest =>
      rw [wellFormedUTF16_cons] at h
      rw [List.cons_append, to_bytes_cons, codePoints_cons]
      simp only [List.length_cons] at hl
      split_ifs at h with c1 c2
      · have hc := c1
        simp only [Bool.or_eq_true, Bool.and_eq_true, decide_eq_true_eq] at hc
        have hn : ¬ ((decide (0xD800 ≤ u0) && decide (u0 < 0xDC00)) = true) := by
          simp only [Bool.and_eq_true, decide_eq_true_eq]; omega
        rw [if_pos c1, if_neg hn, ih rest q (by omega) h, utf8Encode_cons]
        cases to_bytes q <;> simp
      · have hc := c1
        simp only [Bool.or_eq_true, Bool.and_eq_true, decide_eq_true_eq] at hc
        have hp : (decide (0xD800 ≤ u0) && decide (u0 < 0xDC00)) = true := by
          simp only [Bool.and_eq_true, decide_eq_true_eq]; omega
        rw [if_neg c1, if_pos c2, if_pos hp]
        cases rest with
        | nil => simp at h
        | cons u1 r1 =>
          simp only [List.length_cons] at hl
          simp only [Bool.and_eq_true] at h
          simp only [List.cons_append]
          have hu : (decide (0xDC00 ≤ u1) && decide (u1 < 0xE000)) = true := by
            simp only [Bool.and_eq_true]; exact h.1
          rw [if_pos hu, ih r1 q (by omega) h.2, utf8Encode_cons]
          cases to_bytes q <;> simp

theorem to_bytes_append (p q : List Nat) (h : wellFormedUTF16 p = true) :
    to_bytes (p ++ q) = (to_bytes q).map (fun s => utf8Encode (codePoints p) ++ s) :=
  to_bytes_append_aux p.length p q (Nat.le_refl _) h

/-- On well-formed UTF-16 the codec's `to_bytes` yields the UTF-8 encoding of
the string's code points. -/
theorem to_bytes_of_wellFormed (js : List Nat) (h : wellFormedUTF16 js = true) :
    to_bytes js = some (utf8Encode (codePoints js)) := by
  have := to_bytes_append js [] h
  rw [List.append_nil] at this
  rw [this]
  simp [to_bytes]

/-- The codec throws on a low surrogate that follows a well-formed prefix. -/
theorem to_bytes_lone_low (p rest : List Nat) (u : Nat) (h : wellFormedUTF16 p = true)
    (hlo : 0xDC00 ≤ u) (hhi : u < 0xE000) : to_bytes (p ++ u :: rest) = none := by
  rw [to_bytes_append p _ h, to_bytes_cons]
  rw [if_neg (by simp only [Bool.or_eq_true, Bool.and_eq_true, decide_eq_true_eq]; omega),
    if_neg (by omega)]
  rfl

/-- The codec throws on a high surrogate that is followed by a unit other than
a low surrogate. -/
theorem to_bytes_high_not_low (p rest : List Nat) (u x : Nat) (h : wellFormedUTF16 p = true)
    (hlo : 0xD800 ≤ u) (hhi : u < 0xDC00) (hx : x < 0xDC00 ∨ 0xE000 ≤ x) :
    to_bytes (p ++ u :: x :: rest) = none := by
  rw [to_bytes_append p _ h, to_bytes_cons]
  rw [if_neg (by simp only [Bool.or_eq_true, Bool.and_eq_true, decide_eq_true_eq]; omega),
    if_pos (by omega)]
  simp only []
  rw [if_neg (by simp only [Bool.and_eq_true, decide_eq_true_eq]; omega)]
  rfl

/-- The codec stops at a high surrogate that ends the string and returns the
encoding of the well-formed part before it. -/
theorem to_bytes_trailing_high (p : List Nat) (u : Nat) (h : wellFormedUTF16 p = true)
    (hlo : 0xD800 ≤ u) (hhi : u < 0xDC00) :
    to_bytes (p ++ [u]) = some (utf8Encode (codePoints p)) := by
  rw [to_bytes_append p _ h, to_bytes_cons]
  rw [if_neg (by simp only [Bool.or_eq_true, Bool.and_eq_true, decide_eq_true_eq]; omega),
    if_pos (by omega)]
  simp

/-! ## `throwError`: unfolding and closed form -/

theorem toJString_succ (fuel : Nat) (N : Native) (env : JNIEnv) (s : Option (List Nat)) :
    toJString (fuel + 1) N env s =
      match s with
      | none => some (none, env)
      | some buf => UTF8ToJstring fuel N env buf := by
  rw [toJString.eq_def]

theorem UTF8ToJstring_succ (fuel : Nat) (N : Native) (env : JNIEnv) (s : List Nat) :
    UTF8ToJstring (fuel + 1) N env s =
      if N.bad_alloc then
        (throwError' fuel N env ⟨LiteCoreDomain, kC4ErrorMemoryError, 0⟩).map
          (fun e => (none, e))
      else
        match from_bytes s with
        | none =>
          (throwError' fuel N env ⟨LiteCoreDomain, kC4ErrorCorruptData, 0⟩).map
            (fun e => (none, e))
        | some tmpstr =>
          match env.NewString (if N.msvc then cstr tmpstr else tmpstr) with
          | (none, env1) =>
            (throwError' fuel N env1 ⟨LiteCoreDomain, kC4ErrorMemoryError, 0⟩).map
              (fun e => (none, e))
          | (some jstr, env1) => some (some jstr, env1) := by
  rw [UTF8ToJstring.eq_def]

theorem throwError_succ (fuel : Nat) (N : Native) (env : JNIEnv) (error : C4Error) :
    throwError' (fuel + 1) N env error =
      if (env.record (Event.throwError error)).pending.isSome then
        some (env.record (Event.throwError error))
      else
        match toJString fuel N (env.record (Event.throwError error))
            (N.c4error_getMessage error) with
        | none => none
        | some (msg, env1) =>
          some (env1.CallStaticVoidMethod_throwException (toJint error.domain)
            (toJint error.code) msg) := by
  rw [throwError'.eq_def]

theorem throwError_eq_closed (N : Native) (hb : N.bad_alloc = false) (fuel : Nat)
    (hf : 4 ≤ fuel) (env : JNIEnv) (error : C4Error)
    (hm : messageOK (N.c4error_getMessage error)) :
    throwError' fuel N env error = some (throwErrorClosed N env error) := by
  obtain ⟨f, rfl⟩ : ∃ f, fuel = f + 4 := ⟨fuel - 4, by omega⟩
  unfold throwErrorClosed
  rw [throwError_succ]
  by_cases hp : env.pending.isSome = true
  · simp [JNIEnv.record, hp]
  · have hp' : (env.record (Event.throwError error)).pending.isSome = false := by
      simpa [JNIEnv.record] using hp
    rw [if_neg (by simp [hp']), if_neg hp, toJString_succ]
    rcases hm with hnone | ⟨buf, u, hbuf, hu⟩
    · rw [hnone]
    · rw [hbuf]
      simp only []
      rw [UTF8ToJstring_succ, if_neg (by simp [hb]), hu]
      simp only []
      by_cases hns : env.newStringFails = true
      · have h1 : (env.record (Event.throwError error)).NewString
            (if N.msvc = true then cstr u else u) =
            (none, { env.record (Event.throwError error) with
              pending := some JThrowable.outOfMemoryError,
              log := (env.record (Event.throwError error)).log ++
                [Event.NewString (if N.msvc = true then cstr u else u) false] }) := by
          simp [JNIEnv.NewString, JNIEnv.record, hns, hp]
        rw [if_pos hns, h1]
        simp only []
        rw [throwError_succ]
        simp [JNIEnv.record]
      · have h1 : (env.record (Event.throwError error)).NewString
            (if N.msvc = true then cstr u else u) =
            (some (if N.msvc = true then cstr u else u),
              (env.record (Event.throwError error)).record
                (Event.NewString (if N.msvc = true then cstr u else u) true)) := by
          simp [JNIEnv.NewString, JNIEnv.record, hns]
        rw [if_neg hns, h1]

/-! ## What `throwError` leaves behind -/

theorem throwExceptionCalls_append (l1 l2 : List Event) :
    throwExceptionCalls (l1 ++ l2) = throwExceptionCalls l1 ++ throwExceptionCalls l2 := by
  simp [throwExceptionCalls, List.filterMap_append]

theorem thrownErrors_append (l1 l2 : List Event) :
    thrownErrors (l1 ++ l2) = thrownErrors l1 ++ thrownErrors l2 := by
  simp [thrownErrors, List.filterMap_append]

theorem nativeErrors_append (l1 l2 : List Event) :
    nativeErrors (l1 ++ l2) = nativeErrors l1 ++ nativeErrors l2 := by
  simp [nativeErrors, List.filterMap_append]

theorem stringsCreated_append (l1 l2 : List Event) :
    stringsCreated (l1 ++ l2) = stringsCreated l1 + stringsCreated l2 := by
  simp [stringsCreated, List.countP_append]

theorem logCallbackCalls_append (l1 l2 : List Event) :
    logCallbackCalls (l1 ++ l2) = logCallbackCalls l1 + logCallbackCalls l2 := by
  simp [logCallbackCalls, List.countP_append]

theorem throwErrorClosed_pending (N : Native) (env : JNIEnv) (e : C4Error)
    (hp : env.pending.isSome = true) :
    throwErrorClosed N env e = env.record (Event.throwError e) := by
  unfold throwErrorClosed
  rw [if_pos hp]

/-- The shape of the log after `throwError`: the old log, the `throwError`
mark, possibly a `NewString` and a nested `throwError` of the memory error, and
at most one `throwException`. -/
theorem throwErrorClosed_log (N : Native) (env : JNIEnv) (e : C4Error)
    (hm : messageOK (N.c4error_getMessage e)) :
    ∃ rest, (throwErrorClosed N env e).log = env.log ++ Event.throwError e :: rest
      ∧ logCallbackCalls rest = 0
      ∧ nativeErrors rest = []
      ∧ threadCalls rest = []
      ∧ (∀ x ∈ thrownErrors rest, x = ⟨LiteCoreDomain, kC4ErrorMemoryError, 0⟩) := by
  unfold throwErrorClosed
  by_cases hp : env.pending.isSome = true
  · rw [if_pos hp]
    exact ⟨[], by simp [JNIEnv.record], rfl, rfl, rfl, by simp [thrownErrors]⟩
  · rw [if_neg hp]
    rcases hm with hnone | ⟨buf, u, hbuf, hu⟩
    · rw [hnone]
      exact ⟨[Event.throwException (toJint e.domain) (toJint e.code) none],
        by simp [JNIEnv.record, JNIEnv.CallStaticVoidMethod_throwException], rfl, rfl, rfl,
        by simp [thrownErrors]⟩
    · rw [hbuf]
      simp only [hu]
      by_cases hns : env.newStringFails = true
      · rw [if_pos hns]
        refine ⟨[Event.NewString (if N.msvc = true then cstr u else u) false,
          Event.throwError ⟨LiteCoreDomain, kC4ErrorMemoryError, 0⟩,
          Event.throwException (toJint e.domain) (toJint e.code) none], ?_, rfl, rfl, rfl, ?_⟩
        · simp [JNIEnv.record, JNIEnv.CallStaticVoidMethod_throwException, JNIEnv.NewString, hns]
        · simp [thrownErrors]
      · rw [if_neg hns]
        refine ⟨[Event.NewString (if N.msvc = true then cstr u else u) true,
          Event.throwException (toJint e.domain) (toJint e.code) (some (if N.msvc = true then cstr u else u))],
          ?_, rfl, rfl, rfl, ?_⟩
        · simp [JNIEnv.record, JNIEnv.CallStaticVoidMethod_throwException, JNIEnv.NewString, hns]
        · simp [thrownErrors]

/-! ## Every run that returns: the log only grows -/

theorem UTF8ToJstring_zero (N : Native) (env : JNIEnv) (s : List Nat) :
    UTF8ToJstring 0 N env s = none := by
  rw [UTF8ToJstring.eq_def]

theorem toJString_zero (N : Native) (env : JNIEnv) (s : Option (List Nat)) :
    toJString 0 N env s = none := by
  rw [toJString.eq_def]

theorem throwError_zero (N : Native) (env : JNIEnv) (e : C4Error) :
    throwError' 0 N env e = none := by
  rw [throwError'.eq_def]

theorem NewString_log (env : JNIEnv) (chars : List Nat) :
    ∃ ok, (env.NewString chars).2.log = env.log ++ [Event.NewString chars ok] := by
  unfold JNIEnv.NewString
  by_cases h : env.newStringFails = true
  · rw [if_pos h]
    exact ⟨false, rfl⟩
  · rw [if_neg h]
    exact ⟨true, rfl⟩

/-- Whatever the collaborators do, a call of `UTF8ToJstring`, `toJString` or
`throwError` that returns has only added to the log, and `throwError` has first
added the mark of its own call. -/
theorem calls_extend_log (N : Native) : ∀ (fuel : Nat),
    (∀ env s r env1, UTF8ToJstring fuel N env s = some (r, env1) →
        ∃ rest, env1.log = env.log ++ rest)
      ∧ (∀ env s r env1, toJString fuel N env s = some (r, env1) →
        ∃ rest, env1.log = env.log ++ rest)
      ∧ (∀ env e env1, throwError' fuel N env e = some env1 →
        ∃ rest, env1.log = env.log ++ Event.throwError e :: rest) := by
  intro fuel
  induction fuel with
  | zero =>
    refine ⟨?_, ?_, ?_⟩
    · intro env s r env1 h
      rw [UTF8ToJstring_zero] at h
      simp at h
    · intro env s r env1 h
      rw [toJString_zero] at h
      simp at h
    · intro env e env1 h
      rw [throwError_zero] at h
      simp at h
  | succ f ih =>
    obtain ⟨ihU, ihJ, ihT⟩ := ih
    refine ⟨?_, ?_, ?_⟩
    · intro env s r env1 h
      rw [UTF8ToJstring_succ] at h
      by_cases hb : N.bad_alloc = true
      · rw [if_pos hb] at h
        obtain ⟨e1, he1, heq⟩ := map_eq_some_elim h
        simp only [Prod.mk.injEq] at heq
        obtain ⟨rest, hrest⟩ := ihT env _ e1 he1
        exact ⟨_, by rw [← heq.2, hrest]⟩
      · rw [if_neg hb] at h
        cases hu : from_bytes s with
        | none =>
          rw [hu] at h
          simp only [] at h
          obtain ⟨e1, he1, heq⟩ := map_eq_some_elim h
          simp only [Prod.mk.injEq] at heq
          obtain ⟨rest, hrest⟩ := ihT env _ e1 he1
          exact ⟨_, by rw [← heq.2, hrest]⟩
        | some tmpstr =>
          rw [hu] at h
          simp only [] at h
          generalize (if N.msvc = true then cstr tmpstr else tmpstr) = ustr at h
          obtain ⟨ok, hlog⟩ := NewString_log env ustr
          cases hn : env.NewString ustr with
          | mk j envn =>
            rw [hn] at h hlog
            cases j with
            | none =>
              simp only [] at h
              obtain ⟨e1, he1, heq⟩ := map_eq_some_elim h
              simp only [Prod.mk.injEq] at heq
              obtain ⟨rest, hrest⟩ := ihT envn _ e1 he1
              have hlog' : envn.log = env.log ++ [Event.NewString ustr ok] := hlog
              refine ⟨[Event.NewString ustr ok]
                ++ Event.throwError ⟨LiteCoreDomain, kC4ErrorMemoryError, 0⟩ :: rest, ?_⟩
              rw [← heq.2, hrest, hlog', List.append_assoc]
            | some jstr =>
              simp only [Option.some.injEq, Prod.mk.injEq] at h
              have hlog' : envn.log = env.log ++ [Event.NewString ustr ok] := hlog
              exact ⟨_, by rw [← h.2, hlog']⟩
    · intro env s r env1 h
      rw [toJString_succ] at h
      cases s with
      | none =>
        simp only [Option.some.injEq, Prod.mk.injEq] at h
        exact ⟨[], by rw [← h.2]; simp⟩
      | some buf => exact ihU env buf r env1 h
    · intro env e env1 h
      rw [throwError_succ] at h
      by_cases hp : (env.record (Event.throwError e)).pending.isSome = true
      · rw [if_pos hp] at h
        simp only [Option.some.injEq] at h
        exact ⟨[], by rw [← h]; simp [JNIEnv.record]⟩
      · rw [if_neg hp] at h
        cases hj : toJString f N (env.record (Event.throwError e)) (N.c4error_getMessage e) with
        | none => rw [hj] at h; simp at h
        | some p =>
          obtain ⟨msg, envj⟩ := p
          rw [hj] at h
          simp only [Option.some.injEq] at h
          obtain ⟨rest, hrest⟩ := ihJ _ _ msg envj hj
          refine ⟨rest ++ [Event.throwException (toJint e.domain) (toJint e.code) msg], ?_⟩
          rw [← h]
          simp [JNIEnv.CallStaticVoidMethod_throwException, hrest, JNIEnv.record]

/-- Whatever the collaborators do, a Java exception is pending when `throwError`
returns. -/
theorem throwError_pending_after (N : Native) (fuel : Nat) (env : JNIEnv) (e : C4Error)
    (env1 : JNIEnv) (h : throwError' fuel N env e = some env1) :
    env1.pending.isSome = true := by
  cases fuel with
  | zero => rw [throwError_zero] at h; simp at h
  | succ f =>
    rw [throwError_succ] at h
    by_cases hp : (env.record (Event.throwError e)).pending.isSome = true
    · rw [if_pos hp] at h
      simp only [Option.some.injEq] at h
      rw [← h]; exact hp
    · rw [if_neg hp] at h
      cases hj : toJString f N (env.record (Event.throwError e)) (N.c4error_getMessage e) with
      | none => rw [hj] at h; simp at h
      | some p =>
        obtain ⟨msg, envj⟩ := p
        rw [hj] at h
        simp only [Option.some.injEq] at h
        rw [← h]
        simp only [JNIEnv.CallStaticVoidMethod_throwException]
        split_ifs with hq
        · exact hq
        · rfl

/-- With an exception pending, `throwError` returns at once: it makes no call
into Java and the pending exception stays. -/
theorem throwError_when_pending (N : Native) (fuel : Nat) (env : JNIEnv) (e : C4Error)
    (hp : env.pending.isSome = true) :
    throwError' (fuel + 1) N env e = some (env.record (Event.throwError e)) := by
  rw [throwError_succ, if_pos (by simpa [JNIEnv.record] using hp)]

/-- The call `throwError` returns, whatever the error and whatever is pending,
when the C++ heap is not exhausted and LiteCore's message for its own
corrupt-data error is null or bytes the codec accepts: fuel 7 is enough. -/
theorem throwError_returns (N : Native) (hb : N.bad_alloc = false)
    (hm : messageOK (N.c4error_getMessage ⟨LiteCoreDomain, kC4ErrorCorruptData, 0⟩))
    (fuel : Nat) (hf : 7 ≤ fuel) (env : JNIEnv) (e : C4Error) :
    ∃ env1, throwError' fuel N env e = some env1 := by
  obtain ⟨f, rfl⟩ : ∃ f, fuel = f + 7 := ⟨fuel - 7, by omega⟩
  rw [throwError_succ]
  by_cases hp : (env.record (Event.throwError e)).pending.isSome = true
  · rw [if_pos hp]
    exact ⟨_, rfl⟩
  · rw [if_neg hp, toJString_succ]
    cases N.c4error_getMessage e with
    | none => exact ⟨_, rfl⟩
    | some buf =>
      simp only []
      rw [UTF8ToJstring_succ, if_neg (by simp [hb])]
      cases from_bytes buf with
      | none =>
        simp only []
        rw [throwError_eq_closed N hb (f + 4) (by omega) _ _ hm]
        exact ⟨_, rfl⟩
      | some tmpstr =>
        simp only []
        generalize (if N.msvc = true then cstr tmpstr else tmpstr) = ustr
        by_cases hns : env.newStringFails = true
        · have h1 : (env.record (Event.throwError e)).NewString ustr =
              (none, { env.record (Event.throwError e) with
                pending := some JThrowable.outOfMemoryError,
                log := (env.record (Event.throwError e)).log
                  ++ [Event.NewString ustr false] }) := by
            have hp' : env.pending.isSome = false := by simpa [JNIEnv.record] using hp
            simp [JNIEnv.NewString, JNIEnv.record, hns, hp']
          rw [h1]
          simp only []
          rw [throwError_succ, if_pos (by simp [JNIEnv.record])]
          exact ⟨_, rfl⟩
        · have h1 : (env.record (Event.throwError e)).NewString ustr =
              (some ustr, (env.record (Event.throwError e)).record
                (Event.NewString ustr true)) := by
            simp [JNIEnv.NewString, JNIEnv.record, hns]
          rw [h1]
          exact ⟨_, rfl⟩

/-- With nothing pending and a message that can be turned into a Java string,
`throwError` returns after one call of `throwException`, with the domain, the
code and the message string, and the `LiteCoreException` is pending. -/
theorem throwError_when_converts (N : Native) (fuel : Nat) (env : JNIEnv) (e : C4Error)
    (hp : env.pending = none) (hc : messageConverts N env (N.c4error_getMessage e)) :
    ∃ env1, throwError' (fuel + 3) N env e = some env1
      ∧ throwExceptionCalls env1.log = throwExceptionCalls env.log
          ++ [(toJint e.domain, toJint e.code, messageString N (N.c4error_getMessage e))]
      ∧ env1.pending = some (JThrowable.liteCoreException (toJint e.domain) (toJint e.code)
          (messageString N (N.c4error_getMessage e))) := by
  have hp' : ¬ (env.record (Event.throwError e)).pending.isSome = true := by
    simp [JNIEnv.record, hp]
  rw [throwError_succ, if_neg hp', toJString_succ]
  rcases hc with hnone | ⟨hb, hns, buf, u, hbuf, hu⟩
  · rw [hnone]
    refine ⟨_, rfl, ?_, ?_⟩
    · simp [JNIEnv.record, JNIEnv.CallStaticVoidMethod_throwException, throwExceptionCalls,
        List.filterMap_append, messageString]
    · simp [JNIEnv.record, JNIEnv.CallStaticVoidMethod_throwException, hp, messageString]
  · rw [hbuf]
    simp only []
    rw [UTF8ToJstring_succ, if_neg (by simp [hb]), hu]
    simp only [JNIEnv.NewString, JNIEnv.record, hns, Bool.false_eq_true, if_false]
    refine ⟨_, rfl, ?_, ?_⟩
    · simp [JNIEnv.CallStaticVoidMethod_throwException, throwExceptionCalls,
        List.filterMap_append, messageString, hu]
    · simp [JNIEnv.CallStaticVoidMethod_throwException, hp, messageString, hu]

/-! ## `throwError` -/

theorem toJint_of_range (x : Int) (hlo : -2147483648 ≤ x) (hhi : x < 2147483648) :
    toJint x = x := by
  unfold toJint
  omega

/-- C4, the claim as stated fails: nothing is pending, LiteCore's message for
the error (`LiteCoreDomain`, 7) is the byte `80`, which is not UTF-8, and
`throwError` makes two calls of `throwException`, the first for the glue's own
(`LiteCoreDomain`, `kC4ErrorCorruptData`), the second for the error with a null
message; the exception left pending is the first one. -/
theorem throwError_calls_twice_on_bad_message :
    freshEnv.pending = none
      ∧ throwError' 6 badMessageNative freshEnv ⟨LiteCoreDomain, 7, 0⟩
          = some { freshEnv with
              pending := some (JThrowable.liteCoreException LiteCoreDomain kC4ErrorCorruptData
                (some [0x6F, 0x6B]))
              log := [Event.throwError ⟨LiteCoreDomain, 7, 0⟩,
                      Event.throwError ⟨LiteCoreDomain, kC4ErrorCorruptData, 0⟩,
                      Event.NewString [0x6F, 0x6B] true,
                      Event.throwException LiteCoreDomain kC4ErrorCorruptData
                        (some [0x6F, 0x6B]),
                      Event.throwException LiteCoreDomain 7 none] }
      ∧ throwExceptionCalls
            [Event.throwError ⟨LiteCoreDomain, 7, 0⟩,
             Event.throwError ⟨LiteCoreDomain, kC4ErrorCorruptData, 0⟩,
             Event.NewString [0x6F, 0x6B] true,
             Event.throwException LiteCoreDomain kC4ErrorCorruptData (some [0x6F, 0x6B]),
             Event.throwException LiteCoreDomain 7 none]
          = [(LiteCoreDomain, kC4ErrorCorruptData, some [0x6F, 0x6B]),
             (LiteCoreDomain, 7, none)] := by
  decide

/-- C4 as amended: `throwError` translates a LiteCore error verbatim when its
message can be turned into a Java string. For every error, when a Java
exception is already pending it makes no call of `throwException` and the
pending exception stays (fuel 1 is enough); when nothing is pending and the
message `c4error_getMessage(error)` is null or can be turned into a Java string
(bytes the codec accepts, the C++ heap and the VM having memory for the
string), it makes exactly one call of `LiteCoreException.throwException`, whose
arguments are the error's domain and code, each cast to `jint` and so unchanged
when it fits a `jint`, and the Java string `UTF8ToJstring` makes of the
message, and this exception is pending afterwards (fuel 3 is enough). -/
theorem throwError_translates_verbatim (N : Native) (fuel : Nat) (env : JNIEnv) (e : C4Error) :
    (env.pending.isSome = true → 1 ≤ fuel →
        ∃ env1, throwError' fuel N env e = some env1
          ∧ throwExceptionCalls env1.log = throwExceptionCalls env.log
          ∧ env1.pending = env.pending)
      ∧ (env.pending = none → messageConverts N env (N.c4error_getMessage e) → 3 ≤ fuel →
        ∃ env1, throwError' fuel N env e = some env1
          ∧ throwExceptionCalls env1.log = throwExceptionCalls env.log
              ++ [(toJint e.domain, toJint e.code,
                    messageString N (N.c4error_getMessage e))]
          ∧ env1.pending = some (JThrowable.liteCoreException (toJint e.domain)
              (toJint e.code) (messageString N (N.c4error_getMessage e))))
      ∧ (-2147483648 ≤ e.domain → e.domain < 2147483648 → toJint e.domain = e.domain)
      ∧ (-2147483648 ≤ e.code → e.code < 2147483648 → toJint e.code = e.code) := by
  refine ⟨?_, ?_, toJint_of_range e.domain, toJint_of_range e.code⟩
  · intro hp hf
    obtain ⟨f, rfl⟩ : ∃ f, fuel = f + 1 := ⟨fuel - 1, by omega⟩
    refine ⟨_, throwError_when_pending N f env e hp, ?_, rfl⟩
    simp [JNIEnv.record, throwExceptionCalls, List.filterMap_append]
  · intro hp hc hf
    obtain ⟨f, rfl⟩ : ∃ f, fuel = f + 3 := ⟨fuel - 3, by omega⟩
    exact throwError_when_converts N f env e hp hc

theorem throwError_translates_verbatim_witness :
    (∃ env1, throwError' 3 sampleNative freshEnv ⟨LiteCoreDomain, 7, 0⟩ = some env1
        ∧ throwExceptionCalls env1.log = throwExceptionCalls freshEnv.log
            ++ [(toJint (⟨LiteCoreDomain, 7, 0⟩ : C4Error).domain,
                  toJint (⟨LiteCoreDomain, 7, 0⟩ : C4Error).code,
                  messageString sampleNative
                    (sampleNative.c4error_getMessage ⟨LiteCoreDomain, 7, 0⟩))]
        ∧ env1.pending = some (JThrowable.liteCoreException
            (toJint (⟨LiteCoreDomain, 7, 0⟩ : C4Error).domain)
            (toJint (⟨LiteCoreDomain, 7, 0⟩ : C4Error).code)
            (messageString sampleNative
              (sampleNative.c4error_getMessage ⟨LiteCoreDomain, 7, 0⟩))))
      ∧ (∃ env1, throwError' 1 badMessageNative pendingEnv ⟨LiteCoreDomain, 7, 0⟩ = some env1
        ∧ throwExceptionCalls env1.log = throwExceptionCalls pendingEnv.log
        ∧ env1.pending = pendingEnv.pending) :=
  ⟨(throwError_translates_verbatim sampleNative 3 freshEnv ⟨LiteCoreDomain, 7, 0⟩).2.1 rfl
      (Or.inr ⟨rfl, rfl, [0x6F, 0x6B], [0x6F, 0x6B], rfl, by decide⟩) (Nat.le_refl 3),
    (throwError_translates_verbatim badMessageNative 1 pendingEnv ⟨LiteCoreDomain, 7, 0⟩).1 rfl
      (Nat.le_refl 1)⟩

example : throwError' 3 sampleNative freshEnv ⟨1, 7, 0⟩ =
    some { freshEnv with
      pending := some (JThrowable.liteCoreException 1 7 (some [0x6F, 0x6B]))
      log := [Event.throwError ⟨1, 7, 0⟩, Event.NewString [0x6F, 0x6B] true,
              Event.throwException 1 7 (some [0x6F, 0x6B])] } := by decide

/-! ## `getEncryptionKey` -/

theorem jbyteArraySlice_eq_none (env : JNIEnv) (jKeyBytes : Option (List Nat)) :
    jbyteArraySlice env jKeyBytes = none ↔
      (jKeyBytes = none
        ∨ ∃ a, jKeyBytes = some a ∧ (a.length = 0 ∨ env.getByteArrayElementsFails = true)) := by
  cases jKeyBytes with
  | none => simp [jbyteArraySlice, jbyteArraySliceLen]
  | some a =>
    simp only [jbyteArraySlice, jbyteArraySliceLen, JNIEnv.GetByteArrayElements]
    by_cases h : a.length ≤ 0
    · rw [if_pos h]
      simp only [true_iff]
      exact Or.inr ⟨a, rfl, Or.inl (by omega)⟩
    · rw [if_neg h]
      by_cases hf : env.getByteArrayElementsFails = true
      · rw [if_pos hf]
        simp only [Option.map_none', true_iff]
        exact Or.inr ⟨a, rfl, Or.inr hf⟩
      · rw [if_neg hf]
        constructor
        · intro h'
          simp at h'
        · rintro (h' | ⟨b, hb, hl | hl⟩)
          · simp at h'
          · simp only [Option.some.injEq] at hb
            subst hb
            omega
          · exact absurd hl hf

theorem jbyteArraySlice_eq_some (env : JNIEnv) (jKeyBytes : Option (List Nat))
    (buf : List Nat) (h : jbyteArraySlice env jKeyBytes = some buf) :
    jKeyBytes = some buf ∧ 0 < buf.length ∧ env.getByteArrayElementsFails = false := by
  cases jKeyBytes with
  | none => simp [jbyteArraySlice, jbyteArraySliceLen] at h
  | some a =>
    simp only [jbyteArraySlice, jbyteArraySliceLen, JNIEnv.GetByteArrayElements] at h
    by_cases h0 : a.length ≤ 0
    · rw [if_pos h0] at h
      simp at h
    · rw [if_neg h0] at h
      by_cases hf : env.getByteArrayElementsFails = true
      · rw [if_pos hf] at h
        simp at h
      · rw [if_neg hf] at h
        simp only [Option.map_some', List.take_length, Option.some.injEq] at h
        subst h
        exact ⟨rfl, by omega, by simpa using hf⟩

/-- When the key is refused, `getEncryptionKey` is `throwError` of the Crypto
error followed by `return false`. -/
theorem getEncryptionKey_of_refused (fuel : Nat) (N : Native) (env : JNIEnv) (keyAlg : Int)
    (jKeyBytes : Option (List Nat)) (outKey : C4EncryptionKey)
    (h : keyRefused env keyAlg jKeyBytes) :
    getEncryptionKey fuel N env keyAlg jKeyBytes outKey
      = (throwError' fuel N env ⟨LiteCoreDomain, kC4ErrorCrypto, 0⟩).map
          (fun e => (false, { outKey with algorithm := toC4EncryptionAlgorithm keyAlg }, e)) := by
  obtain ⟨halg, hkey⟩ := h
  unfold getEncryptionKey
  rw [if_pos halg]
  cases hs : jbyteArraySlice env jKeyBytes with
  | none => rfl
  | some buf =>
    obtain ⟨hj, hpos, hel⟩ := jbyteArraySlice_eq_some env jKeyBytes buf hs
    simp only []
    have hlen : buf.length > sizeofKeyBytes := by
      rcases hkey with hk | ⟨a, ha, hl | hl | hl⟩
      · rw [hj] at hk; simp at hk
      · rw [hj] at ha
        simp only [Option.some.injEq] at ha
        subst ha
        omega
      · rw [hel] at hl; simp at hl
      · rw [hj] at ha
        simp only [Option.some.injEq] at ha
        subst ha
        exact hl
    rw [if_pos hlen]

/-- When the key is not refused, `getEncryptionKey` returns true, whatever the
fuel, and leaves the environment as it found it. -/
theorem getEncryptionKey_of_not_refused (fuel : Nat) (N : Native) (env : JNIEnv)
    (keyAlg : Int) (jKeyBytes : Option (List Nat)) (outKey : C4EncryptionKey)
    (h : ¬ keyRefused env keyAlg jKeyBytes) :
    ∃ k, getEncryptionKey fuel N env keyAlg jKeyBytes outKey = some (true, k, env) := by
  unfold getEncryptionKey
  by_cases halg : keyAlg ≠ kC4EncryptionNone
  · rw [if_pos halg]
    cases hs : jbyteArraySlice env jKeyBytes with
    | none =>
      exfalso
      apply h
      refine ⟨halg, ?_⟩
      rcases (jbyteArraySlice_eq_none env jKeyBytes).mp hs with hk | ⟨a, ha, hl | hl⟩
      · exact Or.inl hk
      · exact Or.inr ⟨a, ha, Or.inl hl⟩
      · exact Or.inr ⟨a, ha, Or.inr (Or.inl hl)⟩
    | some buf =>
      obtain ⟨hj, _, _⟩ := jbyteArraySlice_eq_some env jKeyBytes buf hs
      simp only []
      by_cases hlen : buf.length > sizeofKeyBytes
      · exfalso
        exact h ⟨halg, Or.inr ⟨buf, hj, Or.inr (Or.inr hlen)⟩⟩
      · rw [if_neg hlen]
        exact ⟨_, rfl⟩
  · rw [if_neg halg]
    exact ⟨_, rfl⟩

/-- C2, the claim as stated fails, in both directions. A key array of three
bytes is neither null nor empty nor longer than 32, yet when the VM does not
hand out its elements `getEncryptionKey` returns false and raises the Crypto
error. And with an exception pending before the call and a null key array it
returns false without raising anything: `throwError` makes no call of
`throwException`. -/
theorem getEncryptionKey_false_without_the_stated_cause :
    getEncryptionKey 4 sampleNative noElementsEnv 1 (some [7, 8, 9]) ⟨0, List.replicate 32 0⟩
        = some (false, ⟨1, List.replicate 32 0⟩,
            { noElementsEnv with
              pending := some (JThrowable.liteCoreException LiteCoreDomain kC4ErrorCrypto
                (some [0x6F, 0x6B]))
              log := [Event.throwError ⟨LiteCoreDomain, kC4ErrorCrypto, 0⟩,
                      Event.NewString [0x6F, 0x6B] true,
                      Event.throwException LiteCoreDomain kC4ErrorCrypto (some [0x6F, 0x6B])] })
      ∧ getEncryptionKey 4 sampleNative pendingEnv 1 none ⟨0, List.replicate 32 0⟩
        = some (false, ⟨1, List.replicate 32 0⟩,
            { pendingEnv with log := [Event.throwError ⟨LiteCoreDomain, kC4ErrorCrypto, 0⟩] })
      ∧ throwExceptionCalls [Event.throwError ⟨LiteCoreDomain, kC4ErrorCrypto, 0⟩] = [] := by
  decide

/-- C2 as amended: `getEncryptionKey` returns false exactly when it calls
`throwError`. Every call that returns, returns false if and only if the key is
refused, that is the algorithm is not `kC4EncryptionNone` and the key array is
null, empty, longer than 32 bytes, or its elements cannot be obtained; it has
then passed the LiteCore-domain `kC4ErrorCrypto` error to `throwError` and a
Java exception is pending on return; otherwise it has returned true and left
the environment as it found it. A key that is not refused, in particular every
key when the algorithm is `kC4EncryptionNone`, makes the call return true
whatever the fuel. A refused key makes the call return false: with an exception
pending before the call that exception stays and no call into Java is made
(fuel 1 is enough); with nothing pending and a message for the error that is
null or can be turned into a Java string, the `LiteCoreException` of
(`LiteCoreDomain`, `kC4ErrorCrypto`) is raised by one call of `throwException`
(fuel 3 is enough); and it returns false in any case when the C++ heap is not
exhausted and LiteCore's message for its corrupt-data error is null or bytes
the codec accepts (fuel 7 is enough). -/
theorem getEncryptionKey_false_iff_raises (N : Native) (fuel : Nat) (env : JNIEnv)
    (keyAlg : Int) (jKeyBytes : Option (List Nat)) (outKey : C4EncryptionKey) :
    (∀ ok k env', getEncryptionKey fuel N env keyAlg jKeyBytes outKey = some (ok, k, env') →
        (ok = false ↔ keyRefused env keyAlg jKeyBytes)
          ∧ (ok = false →
              (∃ rest, env'.log
                  = env.log ++ Event.throwError ⟨LiteCoreDomain, kC4ErrorCrypto, 0⟩ :: rest)
              ∧ env'.pending.isSome = true)
          ∧ (ok = true → env' = env))
      ∧ (¬ keyRefused env keyAlg jKeyBytes →
          ∃ k, getEncryptionKey fuel N env keyAlg jKeyBytes outKey = some (true, k, env))
      ∧ (keyRefused env keyAlg jKeyBytes → env.pending.isSome = true → 1 ≤ fuel →
          ∃ k env', getEncryptionKey fuel N env keyAlg jKeyBytes outKey = some (false, k, env')
            ∧ throwExceptionCalls env'.log = throwExceptionCalls env.log
            ∧ env'.pending = env.pending)
      ∧ (keyRefused env keyAlg jKeyBytes → env.pending = none →
          messageConverts N env (N.c4error_getMessage ⟨LiteCoreDomain, kC4ErrorCrypto, 0⟩) →
          3 ≤ fuel →
          ∃ k env', getEncryptionKey fuel N env keyAlg jKeyBytes outKey = some (false, k, env')
            ∧ throwExceptionCalls env'.log = throwExceptionCalls env.log
                ++ [(LiteCoreDomain, kC4ErrorCrypto,
                      messageString N
                        (N.c4error_getMessage ⟨LiteCoreDomain, kC4ErrorCrypto, 0⟩))]
            ∧ env'.pending = some (JThrowable.liteCoreException LiteCoreDomain kC4ErrorCrypto
                (messageString N
                  (N.c4error_getMessage ⟨LiteCoreDomain, kC4ErrorCrypto, 0⟩))))
      ∧ (keyRefused env keyAlg jKeyBytes → N.bad_alloc = false →
          messageOK (N.c4error_getMessage ⟨LiteCoreDomain, kC4ErrorCorruptData, 0⟩) →
          7 ≤ fuel →
          ∃ k env', getEncryptionKey fuel N env keyAlg jKeyBytes outKey
            = some (false, k, env')) := by
  refine ⟨?_, ?_, ?_, ?_, ?_⟩
  · intro ok k env' hrun
    by_cases hr : keyRefused env keyAlg jKeyBytes
    · rw [getEncryptionKey_of_refused fuel N env keyAlg jKeyBytes outKey hr] at hrun
      obtain ⟨e1, he1, heq⟩ := map_eq_some_elim hrun
      simp only [Prod.mk.injEq] at heq
      obtain ⟨hok, _, henv⟩ := heq
      subst hok henv
      refine ⟨by simp [hr], fun _ => ⟨(calls_extend_log N fuel).2.2 env _ e1 he1,
        throwError_pending_after N fuel env _ e1 he1⟩, fun h => by simp at h⟩
    · obtain ⟨k', hk'⟩ := getEncryptionKey_of_not_refused fuel N env keyAlg jKeyBytes outKey hr
      rw [hk'] at hrun
      simp only [Option.some.injEq, Prod.mk.injEq] at hrun
      obtain ⟨hok, _, henv⟩ := hrun
      subst hok henv
      refine ⟨by simp [hr], fun h => by simp at h, fun _ => rfl⟩
  · intro hr
    exact getEncryptionKey_of_not_refused fuel N env keyAlg jKeyBytes outKey hr
  · intro hr hp hf
    obtain ⟨f, rfl⟩ : ∃ f, fuel = f + 1 := ⟨fuel - 1, by omega⟩
    rw [getEncryptionKey_of_refused (f + 1) N env keyAlg jKeyBytes outKey hr,
      throwError_when_pending N f env _ hp]
    refine ⟨_, _, rfl, ?_, rfl⟩
    simp [JNIEnv.record, throwExceptionCalls, List.filterMap_append]
  · intro hr hp hc hf
    obtain ⟨f, rfl⟩ : ∃ f, fuel = f + 3 := ⟨fuel - 3, by omega⟩
    obtain ⟨env1, h1, h2, h3⟩ := throwError_when_converts N f env _ hp hc
    have hd : toJint LiteCoreDomain = LiteCoreDomain := by decide
    have hcode : toJint kC4ErrorCrypto = kC4ErrorCrypto := by decide
    simp only [hd, hcode] at h2 h3
    rw [getEncryptionKey_of_refused (f + 3) N env keyAlg jKeyBytes outKey hr, h1]
    exact ⟨_, _, rfl, h2, h3⟩
  · intro hr hb hm hf
    obtain ⟨env1, h1⟩ := throwError_returns N hb hm fuel hf env
      ⟨LiteCoreDomain, kC4ErrorCrypto, 0⟩
    rw [getEncryptionKey_of_refused fuel N env keyAlg jKeyBytes outKey hr, h1]
    exact ⟨_, _, rfl⟩

theorem getEncryptionKey_false_iff_raises_witness :
    ∃ k env', getEncryptionKey 3 sampleNative freshEnv 1 (some []) ⟨0, List.replicate 32 0⟩
        = some (false, k, env')
      ∧ throwExceptionCalls env'.log = throwExceptionCalls freshEnv.log
          ++ [(LiteCoreDomain, kC4ErrorCrypto,
                messageString sampleNative
                  (sampleNative.c4error_getMessage ⟨LiteCoreDomain, kC4ErrorCrypto, 0⟩))]
      ∧ env'.pending = some (JThrowable.liteCoreException LiteCoreDomain kC4ErrorCrypto
          (messageString sampleNative
            (sampleNative.c4error_getMessage ⟨LiteCoreDomain, kC4ErrorCrypto, 0⟩))) :=
  (getEncryptionKey_false_iff_raises sampleNative 3 freshEnv 1 (some [])
      ⟨0, List.replicate 32 0⟩).2.2.2.1
    ⟨by decide, Or.inr ⟨[], rfl, Or.inl rfl⟩⟩ rfl
    (Or.inr ⟨rfl, rfl, [0x6F, 0x6B], [0x6F, 0x6B], rfl, by decide⟩) (Nat.le_refl 3)

/-- C3, the claim as stated fails. When the VM does not hand out the elements
of a three-byte key array, nothing is copied: `getEncryptionKey` returns false
and `outKey->bytes` is as before. And the algorithm stored for `keyAlg = -1` is
4294967295, the value of the unsigned 32-bit enumeration type. -/
theorem getEncryptionKey_does_not_copy_without_elements :
    getEncryptionKey 4 sampleNative noElementsEnv 1 (some [7, 8, 9])
          ⟨0, List.replicate 32 255⟩
        = some (false, ⟨1, List.replicate 32 255⟩,
            { noElementsEnv with
              pending := some (JThrowable.liteCoreException LiteCoreDomain kC4ErrorCrypto
                (some [0x6F, 0x6B]))
              log := [Event.throwError ⟨LiteCoreDomain, kC4ErrorCrypto, 0⟩,
                      Event.NewString [0x6F, 0x6B] true,
                      Event.throwException LiteCoreDomain kC4ErrorCrypto (some [0x6F, 0x6B])] })
      ∧ getEncryptionKey 0 sampleNative freshEnv (-1) (some [7, 8, 9])
          ⟨0, List.replicate 32 255⟩
        = some (true, ⟨4294967295, [7, 8, 9] ++ List.replicate 29 0⟩, freshEnv) := by
  decide

/-- C3 as amended: `getEncryptionKey` copies the key. For every algorithm other
than `kC4EncryptionNone` and every key array of 1 to 32 bytes whose elements the
VM hands out, the call returns true whatever the fuel, `outKey->algorithm` is
`keyAlg` converted to the unsigned 32-bit type `C4EncryptionAlgorithm`, which is
`keyAlg` itself when `keyAlg` is not negative, the first bytes of
`outKey->bytes` are the key bytes in order and the remaining bytes are zero,
whatever the 32 bytes held before. -/
theorem getEncryptionKey_copies_key (fuel : Nat) (N : Native) (env : JNIEnv) (keyAlg : Int)
    (key : List Nat) (outKey : C4EncryptionKey)
    (halg : keyAlg ≠ kC4EncryptionNone) (h1 : 1 ≤ key.length) (h32 : key.length ≤ 32)
    (hel : env.getByteArrayElementsFails = false)
    (hout : outKey.bytes.length = 32) :
    ∃ k, getEncryptionKey fuel N env keyAlg (some key) outKey = some (true, k, env)
      ∧ k.algorithm = toC4EncryptionAlgorithm keyAlg
      ∧ (0 ≤ keyAlg → keyAlg < 4294967296 → (k.algorithm : Int) = keyAlg)
      ∧ k.bytes.length = 32
      ∧ k.bytes.take key.length = key
      ∧ k.bytes.drop key.length = List.replicate (32 - key.length) 0 := by
  have hs : jbyteArraySlice env (some key) = some key := by
    simp only [jbyteArraySlice, jbyteArraySliceLen, JNIEnv.GetByteArrayElements, hel,
      List.take_length]
    rw [if_neg (by omega)]
    simp
  have h0 : List.drop 32 outKey.bytes = [] := List.drop_eq_nil_of_le (by omega)
  have hdrop : (List.replicate 32 0 ++ List.drop 32 outKey.bytes).drop key.length
      = List.replicate (32 - key.length) 0 := by
    rw [h0, List.append_nil, List.drop_replicate]
  refine ⟨⟨toC4EncryptionAlgorithm keyAlg, key ++ List.replicate (32 - key.length) 0⟩,
    ?_, rfl, ?_, ?_, ?_, ?_⟩
  · unfold getEncryptionKey
    rw [if_pos halg, hs]
    simp only [sizeofKeyBytes, memcpy, memset, List.take_length]
    rw [if_neg (by omega), hdrop]
  · intro hnn hlt
    simp only [toC4EncryptionAlgorithm]
    rw [Int.toNat_of_nonneg (Int.emod_nonneg _ (by decide))]
    exact Int.emod_eq_of_lt hnn hlt
  · simp only [List.length_append, List.length_replicate]; omega
  · simp
  · simp

theorem getEncryptionKey_copies_key_witness :
    ∃ k, getEncryptionKey 0 sampleNative freshEnv 1 (some [7, 8, 9])
        ⟨0, List.replicate 32 255⟩ = some (true, k, freshEnv)
      ∧ k.algorithm = toC4EncryptionAlgorithm 1
      ∧ (0 ≤ (1 : Int) → (1 : Int) < 4294967296 → (k.algorithm : Int) = 1)
      ∧ k.bytes.length = 32
      ∧ k.bytes.take [7, 8, 9].length = [7, 8, 9]
      ∧ k.bytes.drop [7, 8, 9].length = List.replicate (32 - [7, 8, 9].length) 0 :=
  getEncryptionKey_copies_key 0 _ _ 1 [7, 8, 9] ⟨0, List.replicate 32 255⟩ (by decide)
    (by decide) (by decide) rfl (by decide)

/-! ## `JstringToUTF8` and `jstringSlice` -/

theorem JstringToUTF8_of_to_bytes (env : JNIEnv) (jstr : List Nat)
    (hl : env.getStringLengthFails = false) (hc : env.getStringCharsFails = false) :
    (JstringToUTF8 env jstr).1 = (to_bytes jstr).getD [] := by
  unfold JstringToUTF8 JNIEnv.GetStringLength JNIEnv.GetStringChars
  simp only [hl, hc, Bool.false_eq_true, if_false]
  rw [if_neg (by omega)]
  simp only [Int.toNat_ofNat, List.take_length]
  cases to_bytes jstr <;> rfl

theorem JstringToUTF8_of_throw (env : JNIEnv) (jstr : List Nat) (hn : to_bytes jstr = none) :
    (JstringToUTF8 env jstr).1 = [] := by
  unfold JstringToUTF8
  by_cases h1 : env.GetStringLength jstr < 0
  · rw [if_pos h1]
  · rw [if_neg h1]
    cases hg : env.GetStringChars jstr with
    | none => rfl
    | some chars =>
      simp only []
      have hchars : chars = jstr := by
        unfold JNIEnv.GetStringChars at hg
        by_cases hf : env.getStringCharsFails = true
        · rw [if_pos hf] at hg; simp at hg
        · rw [if_neg hf] at hg; simpa using hg.symm
      have hlen : (env.GetStringLength jstr).toNat = jstr.length := by
        unfold JNIEnv.GetStringLength at h1 ⊢
        by_cases hf : env.getStringLengthFails = true
        · rw [if_pos hf] at h1; simp at h1
        · rw [if_neg hf]; simp
      rw [hchars, hlen, List.take_length, hn]

/-- What `JstringToUTF8` adds to the log: the three JNI string calls, none of
which raises. -/
theorem JstringToUTF8_log (env : JNIEnv) (jstr : List Nat) :
    (JstringToUTF8 env jstr).2.pending = env.pending
      ∧ ∃ rest, (JstringToUTF8 env jstr).2.log = env.log ++ rest
          ∧ throwExceptionCalls rest = [] ∧ thrownErrors rest = []
          ∧ nativeErrors rest = [] := by
  unfold JstringToUTF8
  by_cases h1 : env.GetStringLength jstr < 0
  · rw [if_pos h1]
    exact ⟨rfl, [Event.GetStringLength], rfl, rfl, rfl, rfl⟩
  · rw [if_neg h1]
    cases env.GetStringChars jstr with
    | none =>
      exact ⟨rfl, [Event.GetStringLength, Event.GetStringChars false,
        Event.ReleaseStringChars], by simp [JNIEnv.record], rfl, rfl, rfl⟩
    | some chars =>
      simp only []
      cases to_bytes (List.take (env.GetStringLength jstr).toNat chars) with
      | none =>
        exact ⟨rfl, [Event.GetStringLength, Event.GetStringChars true,
          Event.ReleaseStringChars], by simp [JNIEnv.record], rfl, rfl, rfl⟩
      | some str =>
        exact ⟨rfl, [Event.GetStringLength, Event.GetStringChars true,
          Event.ReleaseStringChars], by simp [JNIEnv.record], rfl, rfl, rfl⟩

/-- A string that is not well-formed UTF-16 either makes the codec throw, or is
a well-formed part followed by one high surrogate that ends the string. -/
theorem illFormed_cases_aux : ∀ (n : Nat) (js : List Nat), js.length ≤ n →
    wellFormedUTF16 js = false →
    to_bytes js = none
      ∨ ∃ p u, js = p ++ [u] ∧ wellFormedUTF16 p = true ∧ 0xD800 ≤ u ∧ u < 0xDC00 := by
  intro n
  induction n with
  | zero =>
    intro js hl h
    have hs : js = [] := List.length_eq_zero.mp (Nat.le_zero.mp hl)
    subst hs
    simp [wellFormedUTF16] at h
  | succ n ih =>
    intro js hl h
    cases js with
    | nil => simp [wellFormedUTF16] at h
    | cons u0 rest =>
      rw [wellFormedUTF16_cons] at h
      rw [to_bytes_cons]
      simp only [List.length_cons] at hl
      by_cases c1 : (decide (u0 < 0xD800) || (decide (0xE000 ≤ u0) && decide (u0 < 0x10000)))
          = true
      · rw [if_pos c1] at h ⊢
        rcases ih rest (by omega) h with hn | ⟨p, u, hp, hw, hlo, hhi⟩
        · left
          rw [hn]
          rfl
        · right
          refine ⟨u0 :: p, u, by rw [hp]; rfl, ?_, hlo, hhi⟩
          rw [wellFormedUTF16_cons, if_pos c1]
          exact hw
      · rw [if_neg c1] at h ⊢
        have hc := c1
        simp only [Bool.or_eq_true, Bool.and_eq_true, decide_eq_true_eq] at hc
        by_cases c2 : u0 < 0xDC00
        · rw [if_pos c2] at h ⊢
          cases rest with
          | nil =>
            right
            exact ⟨[], u0, rfl, rfl, by omega, c2⟩
          | cons u1 r1 =>
            simp only [List.length_cons] at hl
            simp only [] at h ⊢
            by_cases c3 : (decide (0xDC00 ≤ u1) && decide (u1 < 0xE000)) = true
            · rw [if_pos c3]
              have hr1 : wellFormedUTF16 r1 = false := by
                simp only [Bool.and_eq_true] at c3
                simpa [c3.1, c3.2] using h
              rcases ih r1 (by omega) hr1 with hn | ⟨p, u, hp, hw, hlo, hhi⟩
              · left
                rw [hn]
                rfl
              · right
                refine ⟨u0 :: u1 :: p, u, by rw [hp]; rfl, ?_, hlo, hhi⟩
                rw [wellFormedUTF16_cons, if_neg c1, if_pos c2]
                simp only [Bool.and_eq_true] at c3
                simp [c3.1, c3.2, hw]
            · rw [if_neg c3]
              exact Or.inl rfl
        · rw [if_neg c2]
          exact Or.inl rfl

theorem utf8Bytes_ne_zero (c : Nat) (hc : c ≠ 0) : ∀ b ∈ utf8Bytes c, b ≠ 0 := by
  intro b hb
  unfold utf8Bytes at hb
  split_ifs at hb <;> simp at hb <;> omega

theorem codePoints_ne_zero_aux : ∀ (n : Nat) (js : List Nat), js.length ≤ n →
    (∀ u ∈ js, u ≠ 0) → ∀ c ∈ codePoints js, c ≠ 0 := by
  intro n
  induction n with
  | zero =>
    intro js hl _ c hc
    have hs : js = [] := List.length_eq_zero.mp (Nat.le_zero.mp hl)
    subst hs
    simp [codePoints] at hc
  | succ n ih =>
    intro js hl hz c hc
    cases js with
    | nil => simp [codePoints] at hc
    | cons u0 rest =>
      simp only [List.length_cons] at hl
      rw [codePoints_cons] at hc
      have hu0 : u0 ≠ 0 := hz u0 (List.mem_cons_self _ _)
      have hrest : ∀ u ∈ rest, u ≠ 0 := fun u hu => hz u (List.mem_cons_of_mem _ hu)
      split_ifs at hc with c1
      · cases rest with
        | nil =>
          simp only [List.mem_singleton] at hc
          omega
        | cons u1 r1 =>
          simp only [List.length_cons] at hl
          simp only [List.mem_cons] at hc
          rcases hc with h | h
          · omega
          · exact ih r1 (by omega) (fun u hu => hrest u (List.mem_cons_of_mem _ hu)) c h
      · simp only [List.mem_cons] at hc
        rcases hc with h | h
        · omega
        · exact ih rest (by omega) hrest c h

theorem utf8Encode_ne_zero (cps : List Nat) (h : ∀ c ∈ cps, c ≠ 0) :
    ∀ b ∈ utf8Encode cps, b ≠ 0 := by
  intro b hb
  simp only [utf8Encode, List.mem_flatMap] at hb
  obtain ⟨c, hc, hbc⟩ := hb
  exact utf8Bytes_ne_zero c (h c hc) b hbc

theorem cstr_eq_self (s : List Nat) (h : ∀ b ∈ s, b ≠ 0) : cstr s = s := by
  unfold cstr
  rw [List.takeWhile_eq_self_iff]
  intro b hb
  simpa using h b hb

theorem JstringToUTF8_wellFormed (env : JNIEnv) (js : List Nat)
    (hl : env.getStringLengthFails = false) (hc : env.getStringCharsFails = false)
    (hw : wellFormedUTF16 js = true) :
    (JstringToUTF8 env js).1 = utf8Encode (codePoints js) := by
  rw [JstringToUTF8_of_to_bytes env js hl hc, to_bytes_of_wellFormed js hw]
  rfl

example : (JstringToUTF8 freshEnv [0x61, 0xD83D, 0xDE00, 0x20AC]).1 =
    [0x61, 0xF0, 0x9F, 0x98, 0x80, 0xE2, 0x82, 0xAC] := by decide

example : (JstringToUTF8 freshEnv [0x61, 0xDE00]).1 = [] := by decide

/-- C5, the claim as stated fails: the Java string `"a\u0000b"` is well-formed
UTF-16 and its UTF-8 encoding is the three bytes `61 00 62`, but the slice of
`jstringSlice` holds the one byte `61`. -/
theorem jstringSlice_stops_at_NUL :
    wellFormedUTF16 [0x61, 0, 0x62] = true
      ∧ utf8Encode (codePoints [0x61, 0, 0x62]) = [0x61, 0, 0x62]
      ∧ (jstringSlice freshEnv (some [0x61, 0, 0x62])).1 = some [0x61]
      ∧ (jstringSlice freshEnv (some [0x61, 0, 0x62])).1
          ≠ some (utf8Encode (codePoints [0x61, 0, 0x62])) := by
  decide

/-- C5 as amended: for a non-null Java string of well-formed UTF-16 whose
characters can be obtained, the slice of `jstringSlice` has a non-null buffer
holding the UTF-8 encoding of the string's characters up to, not including, the
first zero byte, which is the whole encoding when the string has no U+0000
character; and for any string reference the slice is null if and only if the
reference is null. -/
theorem jstringSlice_spec (env : JNIEnv) (js : List Nat)
    (hl : env.getStringLengthFails = false) (hc : env.getStringCharsFails = false)
    (hw : wellFormedUTF16 js = true) :
    (jstringSlice env (some js)).1 = some (cstr (utf8Encode (codePoints js)))
      ∧ ((∀ u ∈ js, u ≠ 0) →
          (jstringSlice env (some js)).1 = some (utf8Encode (codePoints js)))
      ∧ (∀ ref : Option (List Nat), (jstringSlice env ref).1 = none ↔ ref = none) := by
  have h1 : (jstringSlice env (some js)).1 = some (cstr (utf8Encode (codePoints js))) := by
    have := (JstringToUTF8_wellFormed env js hl hc hw)
    simp only [jstringSlice, FLStr, this]
  refine ⟨h1, ?_, ?_⟩
  · intro hz
    rw [h1, cstr_eq_self _
      (utf8Encode_ne_zero _ (codePoints_ne_zero_aux js.length js (Nat.le_refl _) hz))]
  · intro ref
    cases ref with
    | none => simp [jstringSlice]
    | some j => simp [jstringSlice, FLStr]

theorem jstringSlice_spec_witness :
    (jstringSlice freshEnv (some [0x61, 0xD83D, 0xDE00])).1
        = some (cstr (utf8Encode (codePoints [0x61, 0xD83D, 0xDE00])))
      ∧ ((∀ u ∈ [0x61, 0xD83D, 0xDE00], u ≠ 0) →
          (jstringSlice freshEnv (some [0x61, 0xD83D, 0xDE00])).1
            = some (utf8Encode (codePoints [0x61, 0xD83D, 0xDE00])))
      ∧ (∀ ref : Option (List Nat), (jstringSlice freshEnv ref).1 = none ↔ ref = none) :=
  jstringSlice_spec freshEnv [0x61, 0xD83D, 0xDE00] rfl rfl (by decide)


/-! ## `UTF8ToJstring` then `JstringToUTF8` -/

/-- Behaviour of `UTF8ToJstring` on bytes the codec accepts, with heap and VM memory to
spare: the Java string of the converted code units (cut at the first U+0000
when compiled with `_MSC_VER`), and one `NewString` logged. -/
theorem UTF8ToJstring_ok (fuel : Nat) (N : Native) (env : JNIEnv) (s u : List Nat)
    (hb : N.bad_alloc = false) (hns : env.newStringFails = false)
    (hu : from_bytes s = some u) :
    UTF8ToJstring (fuel + 1) N env s
      = some (some (if N.msvc then cstr u else u),
          env.record (Event.NewString (if N.msvc then cstr u else u) true)) := by
  rw [UTF8ToJstring_succ, if_neg (by simp [hb]), hu]
  simp only [JNIEnv.NewString, hns, Bool.false_eq_true, if_false]

/-- The round trip on a build without `_MSC_VER`: for every well-formed UTF-8
byte string `s`, allocation succeeding, `UTF8ToJstring` returns a Java string
and `JstringToUTF8` of that string is `s` again. -/
theorem UTF8ToJstring_JstringToUTF8_roundtrip (fuel : Nat) (N : Native) (env : JNIEnv)
    (s : List Nat) (hmsvc : N.msvc = false) (hb : N.bad_alloc = false)
    (hns : env.newStringFails = false) (hl : env.getStringLengthFails = false)
    (hc : env.getStringCharsFails = false) (hw : wellFormedUTF8 s = true) :
    ∃ jstr env1, UTF8ToJstring (fuel + 1) N env s = some (some jstr, env1)
      ∧ (JstringToUTF8 env1 jstr).1 = s := by
  obtain ⟨u, hu, hback, _⟩ := from_bytes_of_wellFormed s hw
  refine ⟨u, env.record (Event.NewString u true), ?_, ?_⟩
  · rw [UTF8ToJstring_ok fuel N env s u hb hns hu]
    simp [hmsvc]
  · rw [JstringToUTF8_of_to_bytes _ u (by simpa [JNIEnv.record] using hl)
      (by simpa [JNIEnv.record] using hc), hback]
    rfl

/-- C1, on a build with `_MSC_VER` defined: the well-formed UTF-8 string
`61 00 62` comes back from `UTF8ToJstring` as the one-character Java string
`"a"`, and `JstringToUTF8` of it is the single byte `61`, not the three bytes
that went in. -/
theorem UTF8ToJstring_msvc_truncates :
    wellFormedUTF8 [0x61, 0, 0x62] = true
      ∧ UTF8ToJstring 1 sampleNativeMSVC freshEnv [0x61, 0, 0x62]
          = some (some [0x61], freshEnv.record (Event.NewString [0x61] true))
      ∧ (JstringToUTF8 (freshEnv.record (Event.NewString [0x61] true)) [0x61]).1 = [0x61]
      ∧ UTF8ToJstring 1 sampleNative freshEnv [0x61, 0, 0x62]
          = some (some [0x61, 0, 0x62],
              freshEnv.record (Event.NewString [0x61, 0, 0x62] true)) := by
  decide

/-- The round trip on any build, for a well-formed UTF-8 string without a zero
byte: allocation succeeding, `UTF8ToJstring` returns a Java string and
`JstringToUTF8` of that string is `s` again. -/
theorem UTF8ToJstring_JstringToUTF8_roundtrip_msvc (fuel : Nat) (N : Native) (env : JNIEnv)
    (s : List Nat) (hb : N.bad_alloc = false)
    (hns : env.newStringFails = false) (hl : env.getStringLengthFails = false)
    (hc : env.getStringCharsFails = false) (hw : wellFormedUTF8 s = true)
    (hz : ∀ b ∈ s, b ≠ 0) :
    ∃ jstr env1, UTF8ToJstring (fuel + 1) N env s = some (some jstr, env1)
      ∧ (JstringToUTF8 env1 jstr).1 = s := by
  obtain ⟨u, hu, hback, hnz⟩ := from_bytes_of_wellFormed s hw
  have hcu : cstr u = u := cstr_eq_self u (hnz hz)
  have hsel : (if N.msvc = true then cstr u else u) = u := by
    split_ifs
    · exact hcu
    · rfl
  refine ⟨u, env.record (Event.NewString u true), ?_, ?_⟩
  · rw [UTF8ToJstring_ok fuel N env s u hb hns hu, hsel]
  · rw [JstringToUTF8_of_to_bytes _ u (by simpa [JNIEnv.record] using hl)
      (by simpa [JNIEnv.record] using hc), hback]
    rfl

/-! ## `logCallback` -/

theorem threadCalls_append (l1 l2 : List Event) :
    threadCalls (l1 ++ l2) = threadCalls l1 ++ threadCalls l2 := by
  simp [threadCalls, List.filter_append]

/-- Behaviour of `UTF8ToJstring` when the collaborators behave: it returns, and what it adds
to the log is no call of the Java log callback, no thread call and no LiteCore
error, and the only errors it passes to `throwError` are the memory error and
the corrupt-data error of the LiteCore domain. -/
theorem UTF8ToJstring_benign (N : Native) (hN : N.benign) (fuel : Nat) (hf : 5 ≤ fuel)
    (env : JNIEnv) (s : List Nat) :
    ∃ r env1 rest, UTF8ToJstring fuel N env s = some (r, env1)
      ∧ env1.log = env.log ++ rest
      ∧ logCallbackCalls rest = 0
      ∧ nativeErrors rest = []
      ∧ threadCalls rest = []
      ∧ (∀ x ∈ thrownErrors rest, x = ⟨LiteCoreDomain, kC4ErrorMemoryError, 0⟩
          ∨ x = ⟨LiteCoreDomain, kC4ErrorCorruptData, 0⟩) := by
  obtain ⟨f, rfl⟩ : ∃ f, fuel = f + 1 := ⟨fuel - 1, by omega⟩
  obtain ⟨hb, hm⟩ := hN
  rw [UTF8ToJstring_succ, if_neg (by simp [hb])]
  cases hu : from_bytes s with
  | none =>
    simp only []
    rw [throwError_eq_closed N hb f (by omega) env _ (hm _)]
    obtain ⟨rest, hrest, h1, h2, h3, h4⟩ :=
      throwErrorClosed_log N env ⟨LiteCoreDomain, kC4ErrorCorruptData, 0⟩ (hm _)
    refine ⟨none, _, Event.throwError ⟨LiteCoreDomain, kC4ErrorCorruptData, 0⟩ :: rest,
      rfl, hrest, ?_, ?_, ?_, ?_⟩
    · have := logCallbackCalls_append [Event.throwError ⟨LiteCoreDomain, kC4ErrorCorruptData, 0⟩]
        rest
      simp only [List.singleton_append] at this
      rw [this, h1]
      rfl
    · have := nativeErrors_append [Event.throwError ⟨LiteCoreDomain, kC4ErrorCorruptData, 0⟩]
        rest
      simp only [List.singleton_append] at this
      rw [this, h2]
      rfl
    · have := threadCalls_append [Event.throwError ⟨LiteCoreDomain, kC4ErrorCorruptData, 0⟩]
        rest
      simp only [List.singleton_append] at this
      rw [this, h3]
      rfl
    · intro x hx
      have := thrownErrors_append [Event.throwError ⟨LiteCoreDomain, kC4ErrorCorruptData, 0⟩]
        rest
      simp only [List.singleton_append] at this
      rw [this] at hx
      simp only [thrownErrors, List.filterMap_cons, List.filterMap_nil, List.singleton_append,
        List.mem_cons] at hx
      rcases hx with hx | hx
      · exact Or.inr hx
      · exact Or.inl (h4 x (by simpa [thrownErrors] using hx))
  | some u =>
    simp only []
    by_cases hns : env.newStringFails = true
    · have h1 : env.NewString (if N.msvc = true then cstr u else u) =
          (none, { env with
            pending := if env.pending.isSome then env.pending
                       else some JThrowable.outOfMemoryError,
            log := env.log ++ [Event.NewString (if N.msvc = true then cstr u else u) false] }) := by
        simp [JNIEnv.NewString, hns]
      rw [h1]
      simp only []
      rw [throwError_eq_closed N hb f (by omega) _ _ (hm _), throwErrorClosed_pending _ _ _
        (by cases hp : env.pending <;> simp)]
      refine ⟨none, _, [Event.NewString (if N.msvc = true then cstr u else u) false,
        Event.throwError ⟨LiteCoreDomain, kC4ErrorMemoryError, 0⟩], rfl, ?_, rfl, rfl, rfl, ?_⟩
      · simp [JNIEnv.record]
      · simp [thrownErrors]
    · have h1 : env.NewString (if N.msvc = true then cstr u else u) =
          (some (if N.msvc = true then cstr u else u),
            env.record (Event.NewString (if N.msvc = true then cstr u else u) true)) := by
        simp [JNIEnv.NewString, hns]
      rw [h1]
      refine ⟨some (if N.msvc = true then cstr u else u), _,
        [Event.NewString (if N.msvc = true then cstr u else u) true], rfl, ?_, rfl, rfl, rfl, ?_⟩
      · simp [JNIEnv.record]
      · simp [thrownErrors]

theorem logCallback_detach_spec (vm : JavaVM) (getEnvStat : Int) :
    logCallbackCalls (logCallback_detach vm getEnvStat).env.log = logCallbackCalls vm.env.log
      ∧ threadCalls (logCallback_detach vm getEnvStat).env.log
          = threadCalls vm.env.log
              ++ (if getEnvStat = JNI_EDETACHED then
                    [Event.DetachCurrentThread (if vm.detachFails then JNI_ERR else 0)]
                  else [])
      ∧ (logCallback_detach vm getEnvStat).attached
          = (if getEnvStat = JNI_EDETACHED ∧ vm.detachFails = false then false
             else vm.attached) := by
  unfold logCallback_detach JavaVM.DetachCurrentThread
  by_cases hs : getEnvStat = JNI_EDETACHED
  · by_cases hd : vm.detachFails = true
    · simp [hs, hd, JNI_ERR, JNIEnv.record, logCallbackCalls, threadCalls, List.countP_append,
        List.filter_append]
    · simp [hs, hd, JNIEnv.record, logCallbackCalls, threadCalls, List.countP_append,
        List.filter_append]
  · simp [hs]

/-- Lines 227 to 241 of `logCallback` when the collaborators behave. -/
theorem logCallback_deliver_spec (N : Native) (hN : N.benign) (fuel : Nat) (hf : 5 ≤ fuel)
    (vm : JavaVM) (getEnvStat : Int) (domain : Nat) (level : Int) (fmt : List Nat) :
    ∃ vm', logCallback_deliver fuel N vm getEnvStat domain level fmt = some vm'
      ∧ logCallbackCalls vm'.env.log
          = logCallbackCalls vm.env.log + (if vm.env.pending.isSome then 0 else 1)
      ∧ (vm.env.pending.isSome = true → stringsCreated vm'.env.log = stringsCreated vm.env.log)
      ∧ threadCalls vm'.env.log
          = threadCalls vm.env.log
              ++ (if vm.env.pending.isSome = false ∧ getEnvStat = JNI_EDETACHED then
                    [Event.DetachCurrentThread (if vm.detachFails then JNI_ERR else 0)]
                  else [])
      ∧ vm'.attached
          = (if vm.env.pending.isSome = false ∧ getEnvStat = JNI_EDETACHED
                ∧ vm.detachFails = false then false
             else vm.attached) := by
  unfold logCallback_deliver
  by_cases hp : vm.env.pending.isSome = true
  · rw [if_pos hp]
    refine ⟨_, rfl, ?_, ?_, ?_, ?_⟩
    · simp [hp, JNIEnv.record, logCallbackCalls, List.countP_append]
    · intro _
      simp [JNIEnv.record, stringsCreated, List.countP_append]
    · simp [hp, JNIEnv.record, threadCalls, List.filter_append]
    · simp [hp]
  · rw [if_neg hp]
    obtain ⟨r, env1, rest, hr, hlog, h1, _, h3, _⟩ :=
      UTF8ToJstring_benign N hN fuel hf vm.env (cstr fmt)
    rw [hr]
    simp only []
    refine ⟨_, rfl, ?_, ?_, ?_, ?_⟩
    · rw [(logCallback_detach_spec _ getEnvStat).1]
      simp only [JNIEnv.record, hlog, logCallbackCalls_append, h1, hp]
      simp [logCallbackCalls]
    · intro h
      exact absurd h hp
    · rw [(logCallback_detach_spec _ getEnvStat).2.1]
      simp only [JNIEnv.record, hlog, threadCalls_append, h3]
      simp [threadCalls, hp]
    · rw [(logCallback_detach_spec _ getEnvStat).2.2]
      simp [hp]

theorem attachCurrentThread_spec (vm : JavaVM) :
    (attachCurrentThread vm).2.env.pending = vm.env.pending
      ∧ (attachCurrentThread vm).2.detachFails = vm.detachFails
      ∧ logCallbackCalls (attachCurrentThread vm).2.env.log = logCallbackCalls vm.env.log
      ∧ stringsCreated (attachCurrentThread vm).2.env.log = stringsCreated vm.env.log
      ∧ threadCalls (attachCurrentThread vm).2.env.log
          = threadCalls vm.env.log ++ [Event.AttachCurrentThread (attachCurrentThread vm).1]
      ∧ ((attachCurrentThread vm).1 ≠ 0 → (attachCurrentThread vm).2.attached = vm.attached)
      ∧ ((attachCurrentThread vm).1 = 0 ↔ vm.attachFails = false) := by
  unfold attachCurrentThread
  by_cases h : vm.attachFails = true
  · simp [h, JNI_ERR, JNIEnv.record, logCallbackCalls, stringsCreated, threadCalls,
      List.countP_append, List.filter_append]
  · simp [h, JNIEnv.record, logCallbackCalls, stringsCreated, threadCalls,
      List.countP_append, List.filter_append]

/-- The guard of `logCallback` on entry. In every invocation in which the
thread's environment reports a pending exception at the `ExceptionCheck`, or the
environment cannot be obtained (`GetEnv` answers neither `JNI_OK` nor
`JNI_EDETACHED`), or the thread cannot be attached, `logCallback` creates no
Java string and does not call the Java method `C4Log.logCallback`; in every
other invocation it calls that method exactly once, also when the conversion of
the message has raised an exception in the meantime. (LiteCore's messages are
null or UTF-8 text and the C++ heap is not exhausted, so that `logCallback`
returns.) -/
theorem logCallback_guard_on_entry (N : Native) (hN : N.benign) (fuel : Nat) (hf : 5 ≤ fuel)
    (vm : JavaVM) (domain : Nat) (level : Int) (fmt : List Nat) :
    ∃ vm', logCallback fuel N vm domain level fmt = some vm'
      ∧ ((vm.env.pending.isSome = true
            ∨ (vm.GetEnv ≠ JNI_OK ∧ vm.GetEnv ≠ JNI_EDETACHED)
            ∨ (vm.GetEnv = JNI_EDETACHED ∧ (attachCurrentThread vm).1 ≠ 0)) →
          stringsCreated vm'.env.log = stringsCreated vm.env.log
            ∧ logCallbackCalls vm'.env.log = logCallbackCalls vm.env.log)
      ∧ (¬ (vm.env.pending.isSome = true
            ∨ (vm.GetEnv ≠ JNI_OK ∧ vm.GetEnv ≠ JNI_EDETACHED)
            ∨ (vm.GetEnv = JNI_EDETACHED ∧ (attachCurrentThread vm).1 ≠ 0)) →
          logCallbackCalls vm'.env.log = logCallbackCalls vm.env.log + 1) := by
  obtain ⟨ha1, _, ha3, ha4, _, _, _⟩ := attachCurrentThread_spec vm
  unfold logCallback
  by_cases hd : vm.GetEnv = JNI_EDETACHED
  · rw [if_pos hd]
    by_cases hat : (attachCurrentThread vm).1 ≠ 0
    · rw [if_pos hat]
      refine ⟨_, rfl, ?_, ?_⟩
      · intro _
        simp only [JNIEnv.record, stringsCreated_append, logCallbackCalls_append, ha3, ha4]
        simp [stringsCreated, logCallbackCalls]
      · intro hnb
        exact absurd (Or.inr (Or.inr ⟨hd, hat⟩)) hnb
    · rw [if_neg hat]
      obtain ⟨vm', hvm, h1, h2, _, _⟩ := logCallback_deliver_spec N hN fuel hf
        (attachCurrentThread vm).2 vm.GetEnv domain level fmt
      rw [ha1, ha3] at h1
      rw [ha1, ha4] at h2
      refine ⟨vm', hvm, ?_, ?_⟩
      · rintro (hp | ⟨_, h⟩ | ⟨_, h⟩)
        · exact ⟨h2 hp, by rw [h1, if_pos hp]; rfl⟩
        · exact absurd hd h
        · exact absurd h hat
      · intro hnb
        have hp : ¬ vm.env.pending.isSome = true := fun h => hnb (Or.inl h)
        rw [h1, if_neg hp]
  · rw [if_neg hd]
    by_cases hok : vm.GetEnv ≠ JNI_OK
    · rw [if_pos hok]
      refine ⟨_, rfl, ?_, ?_⟩
      · intro _
        simp [JNIEnv.record, stringsCreated, logCallbackCalls, List.countP_append]
      · intro hnb
        exact absurd (Or.inr (Or.inl ⟨hok, hd⟩)) hnb
    · rw [if_neg hok]
      obtain ⟨vm', hvm, h1, h2, _, _⟩ := logCallback_deliver_spec N hN fuel hf
        vm vm.GetEnv domain level fmt
      refine ⟨vm', hvm, ?_, ?_⟩
      · rintro (hp | ⟨h, _⟩ | ⟨h, _⟩)
        · exact ⟨h2 hp, by rw [h1, if_pos hp]; rfl⟩
        · exact absurd h hok
        · exact absurd h hd
      · intro hnb
        have hp : ¬ vm.env.pending.isSome = true := fun h => hnb (Or.inl h)
        rw [h1, if_neg hp]

theorem sampleNative_benign : sampleNative.benign :=
  ⟨rfl, fun _ => Or.inr ⟨[0x6F, 0x6B], [0x6F, 0x6B], rfl, by decide⟩⟩

example : logCallback 5 sampleNative detachedVM 0 2 [0x68, 0x69] =
    some { detachedVM with
      env := { freshEnv with
        log := [Event.AttachCurrentThread 0, Event.NewString [0x68, 0x69] true,
                Event.NewStringUTF (some [0x44, 0x42]),
                Event.logCallback (some [0x44, 0x42]) 2 (some [0x68, 0x69]),
                Event.DetachCurrentThread 0] } } := by decide

/-- C7, the message that raises on the way: the thread is attached, nothing is
pending on entry, and the log message is the byte `80`, which is not UTF-8.
`UTF8ToJstring` fails and leaves the `LiteCoreException` of the corrupt-data
error pending; `logCallback` goes on all the same and, with that exception
pending, creates the Java string of the domain name (`NewStringUTF`) and calls
the Java method `C4Log.logCallback`. -/
theorem logCallback_calls_java_with_exception_pending :
    attachedVM.env.pending = none
      ∧ UTF8ToJstring 5 sampleNative attachedVM.env (cstr [0x80])
          = some (none,
              { freshEnv with
                pending := some (JThrowable.liteCoreException LiteCoreDomain
                  kC4ErrorCorruptData (some [0x6F, 0x6B]))
                log := [Event.throwError ⟨LiteCoreDomain, kC4ErrorCorruptData, 0⟩,
                        Event.NewString [0x6F, 0x6B] true,
                        Event.throwException LiteCoreDomain kC4ErrorCorruptData
                          (some [0x6F, 0x6B])] })
      ∧ logCallback 5 sampleNative attachedVM 0 2 [0x80]
          = some { attachedVM with
              env := { freshEnv with
                pending := some (JThrowable.liteCoreException LiteCoreDomain
                  kC4ErrorCorruptData (some [0x6F, 0x6B]))
                log := [Event.throwError ⟨LiteCoreDomain, kC4ErrorCorruptData, 0⟩,
                        Event.NewString [0x6F, 0x6B] true,
                        Event.throwException LiteCoreDomain kC4ErrorCorruptData
                          (some [0x6F, 0x6B]),
                        Event.NewStringUTF (some [0x44, 0x42]),
                        Event.logCallback (some [0x44, 0x42]) 2 none] } } := by
  decide

/-- C6, the path that leaves the thread attached: the thread is detached on
entry, `AttachCurrentThread` succeeds, the environment reports a pending
exception, and `logCallback` returns at line 229 with the thread still attached
and without any `DetachCurrentThread`. -/
theorem logCallback_leaves_thread_attached :
    detachedPendingVM.attached = false
      ∧ logCallback 5 sampleNative detachedPendingVM 0 2 [0x68, 0x69]
          = some { detachedPendingVM with
              attached := true
              env := { pendingEnv with log := [Event.AttachCurrentThread 0, Event.logError] } }
      ∧ threadCalls [Event.AttachCurrentThread 0, Event.logError]
          = [Event.AttachCurrentThread 0] := by
  decide

/-- The thread calls of `logCallback` on the other paths, the collaborators
behaving: a thread attached on entry is neither attached nor detached; a thread
that cannot be attached sees the one failed attach; a detached thread with
nothing pending is attached and then detached. -/
theorem logCallback_thread_calls (N : Native) (hN : N.benign) (fuel : Nat) (hf : 5 ≤ fuel)
    (vm : JavaVM) (domain : Nat) (level : Int) (fmt : List Nat) :
    ∃ vm', logCallback fuel N vm domain level fmt = some vm'
      ∧ (vm.attached = true →
          vm'.attached = true ∧ threadCalls vm'.env.log = threadCalls vm.env.log)
      ∧ (vm.attached = false → vm.attachFails = true →
          vm'.attached = false
            ∧ threadCalls vm'.env.log
                = threadCalls vm.env.log ++ [Event.AttachCurrentThread JNI_ERR])
      ∧ (vm.attached = false → vm.attachFails = false → vm.env.pending = none →
          threadCalls vm'.env.log
              = threadCalls vm.env.log ++ [Event.AttachCurrentThread 0,
                  Event.DetachCurrentThread (if vm.detachFails then JNI_ERR else 0)]
            ∧ (vm.detachFails = false → vm'.attached = false)) := by
  obtain ⟨ha1, ha2, _, _, ha5, ha6, ha7⟩ := attachCurrentThread_spec vm
  unfold logCallback
  by_cases hatt : vm.attached = true
  · have hd : vm.GetEnv ≠ JNI_EDETACHED := by
      unfold JavaVM.GetEnv
      simp only [hatt, Bool.not_true, Bool.false_eq_true, if_false]
      split_ifs <;> decide
    rw [if_neg hd]
    by_cases hok : vm.GetEnv ≠ JNI_OK
    · rw [if_pos hok]
      refine ⟨_, rfl, ?_, ?_, ?_⟩
      · intro _
        exact ⟨hatt, by simp [JNIEnv.record, threadCalls, List.filter_append]⟩
      · intro h; rw [hatt] at h; simp at h
      · intro h; rw [hatt] at h; simp at h
    · rw [if_neg hok]
      obtain ⟨vm', hvm, _, _, h3, h4⟩ := logCallback_deliver_spec N hN fuel hf
        vm vm.GetEnv domain level fmt
      refine ⟨vm', hvm, ?_, ?_, ?_⟩
      · intro _
        rw [h3, h4]
        simp [hd, hatt]
      · intro h; rw [hatt] at h; simp at h
      · intro h; rw [hatt] at h; simp at h
  · have hatt' : vm.attached = false := by simpa using hatt
    have hd : vm.GetEnv = JNI_EDETACHED := by
      unfold JavaVM.GetEnv
      simp [hatt']
    rw [if_pos hd]
    by_cases hat : (attachCurrentThread vm).1 ≠ 0
    · rw [if_pos hat]
      have hfail : vm.attachFails = true := by
        by_contra hc
        exact hat (ha7.mpr (by simpa using hc))
      have hst : (attachCurrentThread vm).1 = JNI_ERR := by
        unfold attachCurrentThread
        simp [hfail]
      refine ⟨_, rfl, ?_, ?_, ?_⟩
      · intro h; exact absurd h hatt
      · intro _ _
        refine ⟨by simpa [ha6 hat] using hatt', ?_⟩
        simp only [JNIEnv.record, threadCalls_append, ha5, hst]
        simp [threadCalls]
      · intro _ h; rw [hfail] at h; simp at h
    · rw [if_neg hat]
      have hst : (attachCurrentThread vm).1 = 0 := by simpa using hat
      obtain ⟨vm', hvm, _, _, h3, h4⟩ := logCallback_deliver_spec N hN fuel hf
        (attachCurrentThread vm).2 vm.GetEnv domain level fmt
      rw [ha1, ha2, ha5, hst] at h3
      rw [ha1, ha2] at h4
      refine ⟨vm', hvm, ?_, ?_, ?_⟩
      · intro h; exact absurd h hatt
      · intro _ h
        rw [ha7.mp hst] at h; simp at h
      · intro _ _ hp
        rw [h3, h4]
        refine ⟨by simp [hp, hd], ?_⟩
        intro hdf
        simp [hp, hd, hdf]


/-! ## `C4Key.pbkdf2` -/

example : pbkdf2 sampleMbedTLS (some [0x70, 0x77]) (some [9, 9]) 64000 4 =
    some ⟨some [1, 2, 3, 4],
      [⟨mbedtls_md_type_t.MBEDTLS_MD_SHA1, [0x70, 0x77], [9, 9], 64000, 4⟩]⟩ := by decide

/-! ## Which errors reach `throwError` -/

theorem jstringSlice_log (env : JNIEnv) (js : Option (List Nat)) :
    ∃ rest, (jstringSlice env js).2.log = env.log ++ rest
      ∧ thrownErrors rest = [] ∧ nativeErrors rest = [] := by
  cases js with
  | none => exact ⟨[], by simp [jstringSlice], rfl, rfl⟩
  | some j =>
    obtain ⟨_, rest, h1, _, h3, h4⟩ := JstringToUTF8_log env j
    exact ⟨rest, h1, h3, h4⟩

/-- Behaviour of `throwError` when the collaborators behave: it returns, the log grows by the
mark of this call and a tail in which no LiteCore error is recorded and the only
error passed to `throwError` is the memory error. -/
theorem throwError_benign (N : Native) (hN : N.benign) (fuel : Nat) (hf : 4 ≤ fuel)
    (env : JNIEnv) (e : C4Error) :
    ∃ env' rest, throwError' fuel N env e = some env'
      ∧ env'.log = env.log ++ Event.throwError e :: rest
      ∧ nativeErrors rest = []
      ∧ (∀ x ∈ thrownErrors rest, x = ⟨LiteCoreDomain, kC4ErrorMemoryError, 0⟩) := by
  obtain ⟨rest, h1, _, h3, _, h5⟩ := throwErrorClosed_log N env e (hN.2 e)
  exact ⟨_, rest, throwError_eq_closed N hN.1 fuel hf env e (hN.2 e), h1, h3, h5⟩

theorem chosenByGlue_memory : chosenByGlue ⟨LiteCoreDomain, kC4ErrorMemoryError, 0⟩ :=
  ⟨rfl, Or.inl rfl⟩

theorem chosenByGlue_corrupt : chosenByGlue ⟨LiteCoreDomain, kC4ErrorCorruptData, 0⟩ :=
  ⟨rfl, Or.inr (Or.inl rfl)⟩

theorem chosenByGlue_crypto : chosenByGlue ⟨LiteCoreDomain, kC4ErrorCrypto, 0⟩ :=
  ⟨rfl, Or.inr (Or.inr (Or.inl rfl))⟩

theorem chosenByGlue_unexpected (N : Native) :
    chosenByGlue (c4error_make N LiteCoreDomain kC4ErrorUnexpectedError) :=
  ⟨rfl, Or.inr (Or.inr (Or.inr rfl))⟩

theorem thrownErrors_cons_throw (e : C4Error) (rest : List Event) :
    thrownErrors (Event.throwError e :: rest) = e :: thrownErrors rest := by
  simp [thrownErrors]

theorem nativeErrors_cons_throw (e : C4Error) (rest : List Event) :
    nativeErrors (Event.throwError e :: rest) = nativeErrors rest := by
  simp [nativeErrors]

/-- The errors `getEncryptionKey` passes to `throwError`. -/
theorem getEncryptionKey_thrown (N : Native) (hN : N.benign) (fuel : Nat) (hf : 4 ≤ fuel)
    (env : JNIEnv) (keyAlg : Int) (jKeyBytes : Option (List Nat)) (outKey : C4EncryptionKey) :
    ∃ ok k env' rest, getEncryptionKey fuel N env keyAlg jKeyBytes outKey = some (ok, k, env')
      ∧ env'.log = env.log ++ rest
      ∧ nativeErrors rest = []
      ∧ (∀ x ∈ thrownErrors rest, chosenByGlue x) := by
  obtain ⟨env', rest, h1, h2, h3, h4⟩ :=
    throwError_benign N hN fuel hf env ⟨LiteCoreDomain, kC4ErrorCrypto, 0⟩
  have hall : ∀ x ∈ thrownErrors (Event.throwError ⟨LiteCoreDomain, kC4ErrorCrypto, 0⟩ :: rest),
      chosenByGlue x := by
    intro x hx
    rw [thrownErrors_cons_throw, List.mem_cons] at hx
    rcases hx with hx | hx
    · rw [hx]; exact chosenByGlue_crypto
    · rw [h4 x hx]; exact chosenByGlue_memory
  have hnat : nativeErrors (Event.throwError ⟨LiteCoreDomain, kC4ErrorCrypto, 0⟩ :: rest) = [] := by
    rw [nativeErrors_cons_throw, h3]
  have hnil : ∀ x ∈ thrownErrors ([] : List Event), chosenByGlue x := by
    intro x hx
    simp [thrownErrors] at hx
  unfold getEncryptionKey
  by_cases halg : keyAlg ≠ kC4EncryptionNone
  · rw [if_pos halg]
    cases jbyteArraySlice env jKeyBytes with
    | none =>
      simp only [h1, Option.map_some']
      exact ⟨_, _, _, _, rfl, h2, hnat, hall⟩
    | some buf =>
      simp only []
      by_cases hlen : buf.length > sizeofKeyBytes
      · rw [if_pos hlen]
        simp only [h1, Option.map_some']
        exact ⟨_, _, _, _, rfl, h2, hnat, hall⟩
      · rw [if_neg hlen]
        exact ⟨_, _, _, [], rfl, by simp, rfl, hnil⟩
  · rw [if_neg halg]
    exact ⟨_, _, _, [], rfl, by simp, rfl, hnil⟩

/-- The errors `writeToBinaryFile` passes to `throwError`: the one LiteCore
returned, and after it at most the memory error. -/
theorem writeToBinaryFile_thrown (N : Native) (hN : N.benign) (fuel : Nat) (hf : 4 ≤ fuel)
    (env : JNIEnv) (jpath : Option (List Nat)) (jlevel jmaxrotatecount jmaxsize : Int)
    (juseplaintext : Bool) (jheader : Option (List Nat)) :
    ∃ env' rest, writeToBinaryFile fuel N env jpath jlevel jmaxrotatecount jmaxsize
          juseplaintext jheader = some env'
      ∧ env'.log = env.log ++ rest
      ∧ (∀ x ∈ nativeErrors rest, ∃ opts, N.c4log_writeToBinaryFile opts = some x)
      ∧ (∀ x ∈ thrownErrors rest, x ∈ nativeErrors rest ∨ chosenByGlue x) := by
  obtain ⟨r1, hr1, t1, n1⟩ := jstringSlice_log env jpath
  obtain ⟨r2, hr2, t2, n2⟩ := jstringSlice_log (jstringSlice env jpath).2 jheader
  have hlog2 : (jstringSlice (jstringSlice env jpath).2 jheader).2.log = env.log ++ (r1 ++ r2) := by
    rw [hr2, hr1, List.append_assoc]
  have ht12 : thrownErrors (r1 ++ r2) = [] := by rw [thrownErrors_append, t1, t2]; rfl
  have hn12 : nativeErrors (r1 ++ r2) = [] := by rw [nativeErrors_append, n1, n2]; rfl
  unfold writeToBinaryFile
  cases hw : N.c4log_writeToBinaryFile
      { log_level := toC4LogLevel jlevel
        base_path := (jstringSlice env jpath).1
        max_size_bytes := jmaxsize
        max_rotate_count := jmaxrotatecount
        use_plaintext := juseplaintext
        header := (jstringSlice (jstringSlice env jpath).2 jheader).1 } with
  | none =>
    refine ⟨_, r1 ++ r2, rfl, hlog2, ?_, ?_⟩
    · intro x hx; rw [hn12] at hx; simp at hx
    · intro x hx; rw [ht12] at hx; simp at hx
  | some err =>
    simp only []
    obtain ⟨env', rest, h1, h2, h3, h4⟩ :=
      throwError_benign N hN fuel hf
        ((jstringSlice (jstringSlice env jpath).2 jheader).2.record (Event.nativeError err)) err
    have hnat : nativeErrors ((r1 ++ r2) ++ Event.nativeError err :: Event.throwError err :: rest)
        = [err] := by
      have : nativeErrors (Event.nativeError err :: Event.throwError err :: rest)
          = err :: nativeErrors rest := by simp [nativeErrors]
      rw [nativeErrors_append, hn12, this, h3]
      rfl
    have hthr : thrownErrors ((r1 ++ r2) ++ Event.nativeError err :: Event.throwError err :: rest)
        = err :: thrownErrors rest := by
      have : thrownErrors (Event.nativeError err :: Event.throwError err :: rest)
          = err :: thrownErrors rest := by simp [thrownErrors]
      rw [thrownErrors_append, ht12, this]
      rfl
    refine ⟨env', (r1 ++ r2) ++ Event.nativeError err :: Event.throwError err :: rest,
      h1, ?_, ?_, ?_⟩
    · rw [h2]
      simp [JNIEnv.record, hlog2]
    · intro x hx
      rw [hnat, List.mem_singleton] at hx
      exact ⟨_, by rw [hx]; exact hw⟩
    · intro x hx
      rw [hthr, List.mem_cons] at hx
      rcases hx with hx | hx
      · left
        rw [hnat, hx]
        exact List.mem_singleton.mpr rfl
      · right
        rw [h4 x hx]
        exact chosenByGlue_memory

theorem setCallbackLevel_register_thrown (N : Native) (hN : N.benign) (fuel : Nat)
    (hf : 4 ≤ fuel) (env : JNIEnv) (cls : Option Nat) :
    ∃ st' env' rest, setCallbackLevel_register fuel N env cls = some (st', env')
      ∧ env'.log = env.log ++ rest
      ∧ nativeErrors rest = []
      ∧ (∀ x ∈ thrownErrors rest, chosenByGlue x) := by
  unfold setCallbackLevel_register
  by_cases hm : (env.GetStaticMethodID cls).isNone = true
  · rw [if_pos hm]
    obtain ⟨env', rest, h1, h2, h3, h4⟩ := throwError_benign N hN fuel hf env
      (c4error_make N LiteCoreDomain kC4ErrorUnexpectedError)
    simp only [h1, Option.map_some']
    refine ⟨_, _, _, rfl, h2, by rw [nativeErrors_cons_throw, h3], ?_⟩
    intro x hx
    rw [thrownErrors_cons_throw, List.mem_cons] at hx
    rcases hx with hx | hx
    · rw [hx]; exact chosenByGlue_unexpected N
    · rw [h4 x hx]; exact chosenByGlue_memory
  · rw [if_neg hm]
    exact ⟨_, _, [], rfl, by simp, rfl, fun x hx => by simp [thrownErrors] at hx⟩

/-- The errors `setCallbackLevel` passes to `throwError`. -/
theorem setCallbackLevel_thrown (N : Native) (hN : N.benign) (fuel : Nat) (hf : 4 ≤ fuel)
    (st : Statics) (env : JNIEnv) (clazz : Nat) :
    ∃ st' env' rest, setCallbackLevel fuel N st env clazz = some (st', env')
      ∧ env'.log = env.log ++ rest
      ∧ nativeErrors rest = []
      ∧ (∀ x ∈ thrownErrors rest, chosenByGlue x) := by
  unfold setCallbackLevel
  by_cases hc : st.cls_C4Log.isNone = true
  · rw [if_pos hc]
    by_cases hg : (env.NewGlobalRef clazz).isNone = true
    · rw [if_pos hg]
      obtain ⟨env1, rest1, h1, h2, h3, h4⟩ := throwError_benign N hN fuel hf env
        (c4error_make N LiteCoreDomain kC4ErrorUnexpectedError)
      rw [h1]
      simp only []
      obtain ⟨st', env', rest2, k1, k2, k3, k4⟩ :=
        setCallbackLevel_register_thrown N hN fuel hf env1 (env.NewGlobalRef clazz)
      refine ⟨st', env',
        (Event.throwError (c4error_make N LiteCoreDomain kC4ErrorUnexpectedError) :: rest1)
          ++ rest2, k1, ?_, ?_, ?_⟩
      · rw [k2, h2]
        simp
      · rw [nativeErrors_append, nativeErrors_cons_throw, h3, k3]
        rfl
      · intro x hx
        rw [thrownErrors_append, thrownErrors_cons_throw, List.mem_append, List.mem_cons] at hx
        rcases hx with (hx | hx) | hx
        · rw [hx]; exact chosenByGlue_unexpected N
        · rw [h4 x hx]; exact chosenByGlue_memory
        · exact k4 x hx
    · rw [if_neg hg]
      exact setCallbackLevel_register_thrown N hN fuel hf env (env.NewGlobalRef clazz)
  · rw [if_neg hc]
    exact ⟨_, _, [], rfl, by simp, rfl, fun x hx => by simp [thrownErrors] at hx⟩

/-- The errors `toJString` passes to `throwError`. -/
theorem toJString_thrown (N : Native) (hN : N.benign) (fuel : Nat) (hf : 6 ≤ fuel)
    (env : JNIEnv) (s : Option (List Nat)) :
    ∃ r env' rest, toJString fuel N env s = some (r, env')
      ∧ env'.log = env.log ++ rest
      ∧ nativeErrors rest = []
      ∧ (∀ x ∈ thrownErrors rest, chosenByGlue x) := by
  obtain ⟨f, rfl⟩ : ∃ f, fuel = f + 1 := ⟨fuel - 1, by omega⟩
  rw [toJString_succ]
  cases s with
  | none => exact ⟨_, _, [], rfl, by simp, rfl, fun x hx => by simp [thrownErrors] at hx⟩
  | some buf =>
    simp only []
    obtain ⟨r, env1, rest, h1, h2, _, h4, _, h6⟩ :=
      UTF8ToJstring_benign N hN f (by omega) env buf
    refine ⟨r, env1, rest, h1, h2, h4, ?_⟩
    intro x hx
    rcases h6 x hx with h | h
    · rw [h]; exact chosenByGlue_memory
    · rw [h]; exact chosenByGlue_corrupt

end litecore.jni
